import Mathlib

/-!
Verification of the timing / judgment / scoring core of the YouTube rhythm
game. Each definition is a shallow embedding of the corresponding JavaScript
in the repository: `ScoringSystem` (scoring module), `Note` (note.js),
`GameEngine` (game-engine.js) and `AudioAnalyzer.generateBeatsForDuration`
(audio analyzer module). Numbers are embedded as exact rationals; JavaScript
`Math.floor` / `Math.round` become `Int.floor` / `jsRound`; `Math.random()`
is modelled as an explicit stream of rationals in `[0,1)` consumed in call
order.
-/

namespace RhythmGame


/-- Hit judgment results (the strings `'perfect' | 'good' | 'miss'`). -/
inductive HitResult where
  | perfect
  | good
  | miss
deriving DecidableEq, Repr

/-- JavaScript `Math.round` on rationals: round half toward positive infinity. -/
def jsRound (x : ℚ) : ℤ := ⌊x + 1/2⌋

/-- State of the `ScoringSystem` class: the counters set in the constructor,
the configurable timing windows, and the `expectedNotes` field which is
`undefined` until `setTotalExpectedNotes` assigns it — modelled as `Option`. -/
structure ScoringSystem where
  score : ℤ
  combo : ℕ
  maxCombo : ℕ
  totalNotes : ℕ
  hitNotes : ℕ
  perfectCount : ℕ
  goodCount : ℕ
  missCount : ℕ
  timingWindowPerfect : ℚ
  timingWindowGood : ℚ
  expectedNotes : Option ℕ
deriving DecidableEq, Repr

/-- The `ScoringSystem` constructor: all counters zero, windows 50ms / 100ms. -/
def ScoringSystem.init : ScoringSystem :=
  { score := 0, combo := 0, maxCombo := 0, totalNotes := 0, hitNotes := 0,
    perfectCount := 0, goodCount := 0, missCount := 0,
    timingWindowPerfect := 1/20, timingWindowGood := 1/10,
    expectedNotes := none }

/-- `this.baseScores`: perfect 100, good 50, miss 0. -/
def baseScore : HitResult → ℚ
  | .perfect => 100
  | .good => 50
  | .miss => 0

/-- `judgeHit(timeDiff)`: compare `Math.abs(timeDiff)` against the perfect
then the good window, both inclusively; otherwise miss. -/
def ScoringSystem.judgeHit (s : ScoringSystem) (timeDiff : ℚ) : HitResult :=
  let absTimeDiff := |timeDiff|
  if absTimeDiff ≤ s.timingWindowPerfect then .perfect
  else if absTimeDiff ≤ s.timingWindowGood then .good
  else .miss

/-- `this.comboThresholds` from the constructor. -/
def comboThresholds : List ℕ := [10, 25, 50, 100]

/-- `this.comboMultipliers` from the constructor. -/
def comboMultipliers : List ℚ := [1, 3/2, 2, 5/2, 3]

/-- `getComboMultiplier()`: scan the thresholds in order, remembering
`i + 1` for every threshold not exceeding the current combo, and index the
multiplier table with the final index (the default value of `getD` is never
used: the index stays within the table). -/
def ScoringSystem.getComboMultiplier (s : ScoringSystem) : ℚ :=
  let multiplierIndex := (List.range comboThresholds.length).foldl
    (fun m i => if comboThresholds.getD i 0 ≤ s.combo then i + 1 else m) 0
  comboMultipliers.getD multiplierIndex 1

/-- The record returned by `processHit`. -/
structure HitOutcome where
  scoreEarned : ℤ
  multiplier : ℚ
  combo : ℕ
  result : HitResult
deriving DecidableEq, Repr

/-- `processHit(result)`: bump `totalNotes`, branch on the result (updating
the breakdown counter, `hitNotes`, `combo`, and computing
`Math.floor(base * multiplier)` with the multiplier of the *incremented*
combo), then fold the combo into `maxCombo` and add the earned score. -/
def ScoringSystem.processHit (s : ScoringSystem) (result : HitResult) :
    ScoringSystem × HitOutcome :=
  let s1 := { s with totalNotes := s.totalNotes + 1 }
  let step :=
    match result with
    | .perfect =>
        let s2 := { s1 with perfectCount := s1.perfectCount + 1,
                            hitNotes := s1.hitNotes + 1,
                            combo := s1.combo + 1 }
        let m := s2.getComboMultiplier
        (s2, ⌊baseScore .perfect * m⌋, m)
    | .good =>
        let s2 := { s1 with goodCount := s1.goodCount + 1,
                            hitNotes := s1.hitNotes + 1,
                            combo := s1.combo + 1 }
        let m := s2.getComboMultiplier
        (s2, ⌊baseScore .good * m⌋, m)
    | .miss =>
        ({ s1 with missCount := s1.missCount + 1, combo := 0 }, 0, 1)
  let s2 := step.1
  let scoreEarned := step.2.1
  let s3 := if s2.maxCombo < s2.combo then { s2 with maxCombo := s2.combo } else s2
  let s4 := { s3 with score := s3.score + scoreEarned }
  (s4, { scoreEarned := scoreEarned, multiplier := step.2.2,
         combo := s2.combo, result := result })

/-- `processMiss()` simply delegates to `processHit('miss')`. -/
def ScoringSystem.processMiss (s : ScoringSystem) : ScoringSystem × HitOutcome :=
  s.processHit .miss

/-- `getAccuracy()`: 100 when no notes were judged yet, otherwise the
perfect/good-weighted ratio as a percentage, rounded to one decimal place
with `Math.round(accuracy * 10) / 10`. -/
def ScoringSystem.getAccuracy (s : ScoringSystem) : ℚ :=
  if s.totalNotes = 0 then 100
  else
    let weightedHits : ℚ := (s.perfectCount : ℚ) * 1 + (s.goodCount : ℚ) * (1/2)
    let accuracy := weightedHits / (s.totalNotes : ℚ) * 100
    (jsRound (accuracy * 10) : ℚ) / 10

/-- `setTotalExpectedNotes(count)`. -/
def ScoringSystem.setTotalExpectedNotes (s : ScoringSystem) (count : ℕ) :
    ScoringSystem :=
  { s with expectedNotes := some count }

/-- `getProgress()`: return 0 when `expectedNotes` is unset (falsy) or zero,
otherwise `totalNotes / expectedNotes * 100`. -/
def ScoringSystem.getProgress (s : ScoringSystem) : ℚ :=
  match s.expectedNotes with
  | none => 0
  | some e => if e = 0 then 0 else (s.totalNotes : ℚ) / (e : ℚ) * 100

/-- A state with only the combo replaced; used to speak about the
multiplier of the incremented combo. -/
def ScoringSystem.withCombo (s : ScoringSystem) (c : ℕ) : ScoringSystem :=
  { s with combo := c }

/-- Per-run fold used to state the C6 round-trip: feed a list of results to
`processHit`, keeping the state. -/
def ScoringSystem.runHits (s : ScoringSystem) (results : List HitResult) :
    ScoringSystem :=
  results.foldl (fun st r => (st.processHit r).1) s

/-- Timing-synchronization state of `GameEngine`: the anchor taken from the
last YouTube query (`lastYouTubeTime`, seconds), the wall-clock instant of
that query (`lastYouTubeTimeUpdate`, ms), the interpolated song time, and
the calibration offset (0.15s in the constructor). -/
structure ClockState where
  lastYouTubeTime : ℚ
  lastYouTubeTimeUpdate : ℚ
  interpolatedTime : ℚ
  calibrationOffset : ℚ
deriving DecidableEq, Repr

/-- `getInterpolatedPlaybackTime(currentTime)`: if more than 0.1s of wall
time passed since the last anchor, re-query the external source (`ext`,
modelling `youtubePlayer.getCurrentTime()` as a function of the wall-clock
query instant in ms) and snap the anchor; otherwise extrapolate from the
anchor at real-time rate. Returns the updated timing state and the value
returned to the caller (`interpolatedTime + calibrationOffset`). -/
def getInterpolatedPlaybackTime (ext : ℚ → ℚ) (currentTime : ℚ)
    (s : ClockState) : ClockState × ℚ :=
  let timeSinceLastUpdate := (currentTime - s.lastYouTubeTimeUpdate) / 1000
  if 1/10 < timeSinceLastUpdate then
    let s' := { s with lastYouTubeTime := ext currentTime,
                       lastYouTubeTimeUpdate := currentTime,
                       interpolatedTime := ext currentTime }
    (s', s'.interpolatedTime + s'.calibrationOffset)
  else
    let deltaTime := (currentTime - s.lastYouTubeTimeUpdate) / 1000
    let s' := { s with interpolatedTime := s.lastYouTubeTime + deltaTime }
    (s', s'.interpolatedTime + s'.calibrationOffset)

/-- One clock sample per frame, as the game loop does, collecting the
returned playback times. -/
def runClock (ext : ℚ → ℚ) (frames : List ℚ) (s : ClockState) :
    ClockState × List ℚ :=
  match frames with
  | [] => (s, [])
  | t :: ts =>
      let step := getInterpolatedPlaybackTime ext t s
      let rest := runClock ext ts step.1
      (rest.1, step.2 :: rest.2)

/-- The external time source advances at real-time rate (wall clock in ms,
reported playback time in seconds): no discontinuities. -/
def RealTimeRate (ext : ℚ → ℚ) : Prop :=
  ∀ w₁ w₂ : ℚ, ext w₂ - ext w₁ = (w₂ - w₁) / 1000

/-- The stored anchor is consistent with the external source — true of the
state `startGame` builds (`lastYouTubeTime = getCurrentTime()` taken at
`lastYouTubeTimeUpdate`). -/
def Anchored (ext : ℚ → ℚ) (s : ClockState) : Prop :=
  s.lastYouTubeTime = ext s.lastYouTubeTimeUpdate

/-- Note lifecycle status (`'active' | 'hit' | 'missed' | 'removed'`). -/
inductive NoteStatus where
  | active
  | hit
  | missed
  | removed
deriving DecidableEq, Repr

/-- State of a `Note` (note.js). Purely visual constants (height, radius,
per-lane colors) are omitted; `wasScored` is the expando property the game
engine sets, `undefined` (false) at construction. -/
structure Note where
  lane : ℤ
  hitTime : ℚ
  intensity : ℚ
  x : ℚ
  y : ℚ
  width : ℚ
  status : NoteStatus
  hitResult : Option HitResult
  alpha : ℚ
  scale : ℚ
  glowIntensity : ℚ
  wasScored : Bool
deriving DecidableEq, Repr

/-- The `Note` constructor. -/
def Note.spawn (lane : ℤ) (hitTime intensity : ℚ) : Note :=
  { lane := lane, hitTime := hitTime, intensity := intensity,
    x := 0, y := 0, width := 60, status := .active, hitResult := none,
    alpha := 1, scale := 1, glowIntensity := 0, wasScored := false }

/-- `note.update`, first statement block: recompute `y` from the travel
progress and `x` from the lane geometry. -/
def positionStage (timeUntilHit travelTime hitZoneY laneX laneWidth
    spawnY : ℚ) (n : Note) : Note :=
  let progress := 1 - timeUntilHit / travelTime
  { n with y := spawnY + (hitZoneY - spawnY) * progress,
           x := laneX + (laneWidth - n.width) / 2 }

/-- `note.update`, miss check: `active` becomes `missed` once the clock is
more than 0.15s past the hit time. -/
def missCheck (timeUntilHit : ℚ) (n : Note) : Note :=
  if timeUntilHit < -(3/20) ∧ n.status = .active
  then { n with status := .missed } else n

/-- `note.update`, hard cutoff: any note more than 0.5s past the hit time
becomes `removed` regardless of its status. -/
def removeCheck (timeUntilHit : ℚ) (n : Note) : Note :=
  if timeUntilHit < -(1/2) then { n with status := .removed } else n

/-- `note.update`, hit fade animation: drop alpha by 0.1, grow the scale,
remove at zero alpha. -/
def hitAnim (n : Note) : Note :=
  if n.status = .hit then
    let a := n.alpha - 1/10
    let n2 : Note := { n with alpha := a, scale := n.scale + 3/20 }
    if a ≤ 0 then { n2 with status := .removed } else n2
  else n

/-- `note.update`, miss fade animation: drop alpha by 0.05, remove at zero
alpha. -/
def missAnim (n : Note) : Note :=
  if n.status = .missed then
    let a := n.alpha - 1/20
    let n2 : Note := { n with alpha := a }
    if a ≤ 0 then { n2 with status := .removed } else n2
  else n

/-- `note.update`, glow refresh for active notes. -/
def glowStage (timeUntilHit : ℚ) (n : Note) : Note :=
  if n.status = .active then
    { n with glowIntensity := max 0 ((1 - |timeUntilHit|) * (1/2)) }
  else n

/-- `note.update(currentTime, travelTime, hitZoneY, laneX, laneWidth,
spawnY)`: the six statement blocks of the source in order — position,
miss check past the 150ms tolerance, hard removal past the 500ms cutoff,
hit fade, miss fade, glow refresh. -/
def Note.update (currentTime travelTime hitZoneY laneX laneWidth spawnY : ℚ)
    (n : Note) : Note :=
  let timeUntilHit := n.hitTime - currentTime
  glowStage timeUntilHit
    (missAnim
      (hitAnim
        (removeCheck timeUntilHit
          (missCheck timeUntilHit
            (positionStage timeUntilHit travelTime hitZoneY laneX laneWidth
              spawnY n)))))

/-- `note.hit(result)`. -/
def Note.hitWith (n : Note) (result : HitResult) : Note :=
  { n with status := .hit, hitResult := some result }

/-- `note.isActive()`. -/
def Note.isActive (n : Note) : Bool :=
  match n.status with
  | .active => true
  | _ => false

/-- `note.shouldRemove()`. -/
def Note.shouldRemove (n : Note) : Bool :=
  match n.status with
  | .removed => true
  | _ => false

/-- A beat event produced by the generator: `{time, lane, intensity}`. -/
structure Beat where
  time : ℚ
  lane : ℤ
  intensity : ℚ
deriving DecidableEq, Repr

/-- `this.travelTime = 2` (seconds from spawn to hit zone). -/
def travelTime : ℚ := 2

/-- `this.noteSpawnOffset = this.travelTime`. -/
def noteSpawnOffset : ℚ := travelTime

/-- The renderer-supplied geometry consumed by `note.update`; it never
feeds back into timing or scoring. -/
structure Geometry where
  hitZoneY : ℚ
  laneX : ℤ → ℚ
  laneWidth : ℚ
  spawnY : ℚ

/-- A trivial geometry for concrete evaluations. -/
def g0 : Geometry :=
  { hitZoneY := 0, laneX := fun _ => 0, laneWidth := 0, spawnY := 0 }

/-- The `GameEngine` state relevant to run phases, spawning, note updating
and end-of-run scheduling. `endPending` models `this.endTimeout`: whether
the 2-second end-of-run `setTimeout` is currently scheduled. -/
structure GameState where
  isRunning : Bool
  isPaused : Bool
  isGameOver : Bool
  upcomingBeats : List Beat
  beatIndex : ℕ
  notes : List Note
  scoring : ScoringSystem
  endPending : Bool
deriving Repr

/-- The while-loop body of `spawnNotes`: walk the not-yet-consumed beats in
order, materializing a note for each whose spawn time has been reached, and
stop at the first that has not. -/
def spawnRemaining (currentTime : ℚ) : List Beat → List Note
  | [] => []
  | b :: bs =>
      if b.time - noteSpawnOffset ≤ currentTime then
        Note.spawn b.lane b.time b.intensity :: spawnRemaining currentTime bs
      else []

/-- `spawnNotes(currentTime)`: append the newly spawned notes and advance
the beat cursor. -/
def GameState.spawnNotes (currentTime : ℚ) (s : GameState) : GameState :=
  let spawned := spawnRemaining currentTime (s.upcomingBeats.drop s.beatIndex)
  { s with notes := s.notes ++ spawned,
           beatIndex := s.beatIndex + spawned.length }

/-- The engine's per-note call to `note.update`: fixed travel time, the
renderer geometry, and the note's own lane. -/
def engineNoteUpdate (g : Geometry) (currentTime : ℚ) (n : Note) : Note :=
  Note.update currentTime travelTime g.hitZoneY (g.laneX n.lane)
    g.laneWidth g.spawnY n

/-- The per-note body of the game engine update loop: `note.update(...)`
followed by the missed-note handler (`wasScored` guard, then
`scoringSystem.processMiss()`), over the whole note list in order. -/
def processNotes (g : Geometry) (currentTime : ℚ) :
    List Note → ScoringSystem → List Note × ScoringSystem
  | [], sc => ([], sc)
  | n :: rest, sc =>
      let n1 := engineNoteUpdate g currentTime n
      let step :=
        if n1.status = .missed ∧ n1.wasScored = false then
          ({ n1 with wasScored := true }, (sc.processMiss).1)
        else (n1, sc)
      let rest2 := processNotes g currentTime rest step.2
      (step.1 :: rest2.1, rest2.2)

/-- `GameEngine.update(currentTime, deltaTime)`: spawn due notes, update
every note (routing fresh `missed` transitions into the scoring system
exactly once via `wasScored`), prune removed notes, and — when the beat
cursor is exhausted and no notes remain — schedule the 2-second end-of-run
timeout if none is pending. Lane visuals and UI calls mutate no modelled
state. -/
def GameState.update (g : Geometry) (currentTime : ℚ) (s : GameState) :
    GameState :=
  let s1 := s.spawnNotes currentTime
  let step := processNotes g currentTime s1.notes s1.scoring
  let s2 := { s1 with notes := step.1.filter (fun n => !n.shouldRemove),
                      scoring := step.2 }
  if s2.upcomingBeats.length ≤ s2.beatIndex ∧ s2.notes = [] ∧
      s2.endPending = false
  then { s2 with endPending := true }
  else s2

/-- `endGame()`: guarded by `isGameOver`; stops the run and clears the
end-of-run timeout. (Input/video/UI teardown is external.) -/
def GameState.endGame (s : GameState) : GameState :=
  if s.isGameOver then s
  else { s with isGameOver := true, isRunning := false, endPending := false }

/-- `pause()`: sets the flag (and pauses the video / shows the overlay —
external). It does *not* touch `this.endTimeout`. -/
def GameState.pause (s : GameState) : GameState :=
  { s with isPaused := true }

/-- `resume()`. -/
def GameState.resume (s : GameState) : GameState :=
  { s with isPaused := false }

/-- `handlePause()`: toggle unless the game is over. -/
def GameState.handlePause (s : GameState) : GameState :=
  if s.isGameOver then s
  else if s.isPaused then s.resume else s.pause

/-- `scoringSystem.reset()`: zero the counters; the timing windows and
`expectedNotes` are left as they are. -/
def ScoringSystem.reset (s : ScoringSystem) : ScoringSystem :=
  { s with score := 0, combo := 0, maxCombo := 0, totalNotes := 0,
           hitNotes := 0, perfectCount := 0, goodCount := 0, missCount := 0 }

/-- `GameEngine.reset()` (run at the start of every `startGame`, hence on
every restart): clear notes and cursor, clear the flags, clear the pending
end-of-run timeout, reset scoring. -/
def GameState.reset (s : GameState) : GameState :=
  { s with notes := [], beatIndex := 0, isGameOver := false,
           isPaused := false, endPending := false,
           scoring := s.scoring.reset }

/-- The externally-triggered transitions relevant to run phases: a game-loop
frame carrying the current playback time, the pause key, the scheduled
end-of-run delay elapsing, and the reset performed by a restart. -/
inductive GameEvent where
  | frame (playbackTime : ℚ)
  | pauseKey
  | endDelayFires
  | reset

/-- Apply one event. A frame only updates while running and not paused
(`gameLoop`); the end-of-run delay only does anything while its timeout is
still scheduled. -/
def applyEvent (g : Geometry) (s : GameState) : GameEvent → GameState
  | .frame t => if s.isRunning = true ∧ s.isPaused = false
                then s.update g t else s
  | .pauseKey => s.handlePause
  | .endDelayFires => if s.endPending then s.endGame else s
  | .reset => s.reset

/-- Run a sequence of events. -/
def runEvents (g : Geometry) (s : GameState) (evs : List GameEvent) :
    GameState :=
  evs.foldl (applyEvent g) s

/-- The engine state right after `startGame` finishes its setup with a
generated beat list: running, unpaused, cursor at 0, no live notes, fresh
scoring with the expected-note count installed, no end timeout. -/
def startedState (beats : List Beat) : GameState :=
  { isRunning := true, isPaused := false, isGameOver := false,
    upcomingBeats := beats, beatIndex := 0, notes := [],
    scoring := ScoringSystem.init.setTotalExpectedNotes beats.length,
    endPending := false }

/-- The one-directional status order of the spec:
`active → {hit, missed} → removed`. -/
def StatusDir : NoteStatus → NoteStatus → Prop
  | .active, _ => True
  | .hit, .hit => True
  | .hit, .removed => True
  | .missed, .missed => True
  | .missed, .removed => True
  | .removed, .removed => True
  | _, _ => False

/-- Run-phase side conditions that frames preserve: running, not paused,
beat schedule exhausted (empty). -/
def Phase (s : GameState) : Prop :=
  s.isRunning = true ∧ s.isPaused = false ∧ s.upcomingBeats = []

/-- The single live note is still untouched: active, unscored, full alpha,
no miss recorded. -/
def AState (h : ℚ) (s : GameState) : Prop :=
  ∃ n : Note, s.notes = [n] ∧ n.hitTime = h ∧ n.status = .active ∧
    n.wasScored = false ∧ n.alpha = 1 ∧ s.scoring.missCount = 0

/-- The miss has been scored exactly once and every surviving note carries
the `wasScored` guard. -/
def DoneState (s : GameState) : Prop :=
  s.scoring.missCount = 1 ∧ ∀ n ∈ s.notes, n.wasScored = true

/-- A single live note is scored at most once: either it is still live and
unscored with no miss recorded, or the recorded misses are at most one and
every surviving note is guarded. -/
def SubInv (s : GameState) : Prop :=
  (∃ n : Note, s.notes = [n] ∧ n.wasScored = false ∧
    s.scoring.missCount = 0) ∨
  (s.scoring.missCount ≤ 1 ∧ ∀ n ∈ s.notes, n.wasScored = true)

/-- The closest-note scan of `handleKeyPress`: walk `this.notes` in order,
tracking the index and `|hitTime - currentTime|` of the closest active note
in the pressed lane (strict `<`, so the first encountered wins exact ties);
`none` plays the role of the `closestNote = null` /
`closestTimeDiff = Infinity` start. -/
def closestScanAux (lane : ℤ) (currentTime : ℚ) :
    List Note → ℕ → Option (ℕ × ℚ) → Option (ℕ × ℚ)
  | [], _, best => best
  | n :: rest, i, best =>
      let best2 :=
        if n.lane = lane ∧ n.isActive = true then
          let timeDiff := |n.hitTime - currentTime|
          match best with
          | none => some (i, timeDiff)
          | some (j, d) =>
              if timeDiff < d then some (i, timeDiff) else some (j, d)
        else best
      closestScanAux lane currentTime rest (i + 1) best2

/-- The scan over the whole note list. -/
def closestScan (lane : ℤ) (currentTime : ℚ) (notes : List Note) :
    Option (ℕ × ℚ) :=
  closestScanAux lane currentTime notes 0 none

/-- `handleKeyPress(lane, ...)` with the interpolated time passed in:
early-return while paused or over; find the closest active note in the
lane; if one exists, is within the 0.15s gate, and the Judge result is not
`miss`, mark that note hit and scored and process the score — otherwise the
press is a no-op. (Lane visuals, hit feedback and particles are
external.) -/
def GameState.handleKeyPress (s : GameState) (lane : ℤ) (currentTime : ℚ) :
    GameState :=
  if s.isPaused = true ∨ s.isGameOver = true then s
  else
    match closestScan lane currentTime s.notes with
    | none => s
    | some (i, closestTimeDiff) =>
        if closestTimeDiff ≤ 3/20 then
          let result := s.scoring.judgeHit closestTimeDiff
          if result ≠ .miss then
            let n := s.notes.getD i (Note.spawn 0 0 0)
            { s with
              notes :=
                s.notes.set i { n.hitWith result with wasScored := true },
              scoring := (s.scoring.processHit result).1 }
          else s
        else s

/-- Difficulty levels. -/
inductive Difficulty where
  | easy
  | medium
  | hard
deriving DecidableEq, Repr

/-- One difficulty preset of `this.difficultySettings`. -/
structure DiffSettings where
  threshold : ℚ
  minInterval : ℚ
  maxNotes : ℚ
deriving DecidableEq, Repr

/-- `this.difficultySettings`: easy `{2.0, 0.8, 0.3}`,
medium `{1.5, 0.4, 0.6}`, hard `{1.2, 0.2, 1.0}`. -/
def difficultySettings : Difficulty → DiffSettings
  | .easy => ⟨2, 4/5, 3/10⟩
  | .medium => ⟨3/2, 2/5, 3/5⟩
  | .hard => ⟨6/5, 1/5, 1⟩

/-- `Math.floor(Math.random() * 4)`: the random lane. -/
def lane4 (x : ℚ) : ℤ := ⌊4 * x⌋

/-- One iteration of the `generateBeatsForDuration` while-loop at time
`currentTime`, consuming the random stream `r` from index `k` in the
source's call order: the density check (plus a lane draw when it fires),
for non-easy difficulties the 30% half-step subdivision (lane drawn only
when the subdivision fits before `endTime`), and for hard the 20% pair of
quarter-step rapid notes. Returns the emitted beats and the next stream
index. -/
def genIter (d : Difficulty) (beatInterval endTime : ℚ) (r : ℕ → ℚ)
    (currentTime : ℚ) (k : ℕ) : List Beat × ℕ :=
  let main : List Beat × ℕ :=
    if r k < (difficultySettings d).maxNotes then
      ([⟨currentTime, lane4 (r (k + 1)), 1⟩], k + 2)
    else ([], k + 1)
  let k1 := main.2
  let sub : List Beat × ℕ :=
    if d ≠ .easy then
      if r k1 < 3/10 then
        let subdivision := currentTime + beatInterval / 2
        if subdivision < endTime then
          ([⟨subdivision, lane4 (r (k1 + 1)), 7/10⟩], k1 + 2)
        else ([], k1 + 1)
      else ([], k1 + 1)
    else ([], k1)
  let k2 := sub.2
  let rapid : List Beat × ℕ :=
    if d = .hard then
      if r k2 < 1/5 then
        let rapid1 := currentTime + beatInterval / 4
        let rapid2 := currentTime + beatInterval * 3 / 4
        let first : List Beat × ℕ :=
          if rapid1 < endTime then ([⟨rapid1, lane4 (r (k2 + 1)), 1/2⟩], k2 + 2)
          else ([], k2 + 1)
        if rapid2 < endTime then
          (first.1 ++ [⟨rapid2, lane4 (r first.2), 1/2⟩], first.2 + 1)
        else (first.1, first.2)
      else ([], k2 + 1)
    else ([], k2)
  (main.1 ++ sub.1 ++ rapid.1, rapid.2)

/-- The `generateBeatsForDuration` while-loop: run iterations at
`currentTime = 2, 2 + beatInterval, …` while `currentTime < endTime`. The
fuel bound only caps the recursion; the loop guard is checked exactly as in
the source, and the caller passes enough fuel for every positive
`beatInterval`. -/
def genLoop (d : Difficulty) (beatInterval endTime : ℚ) (r : ℕ → ℚ) :
    ℕ → ℚ → ℕ → List Beat × ℕ
  | 0, _, k => ([], k)
  | fuel + 1, currentTime, k =>
      if currentTime < endTime then
        let step := genIter d beatInterval endTime r currentTime k
        let rest := genLoop d beatInterval endTime r fuel
          (currentTime + beatInterval) step.2
        (step.1 ++ rest.1, rest.2)
      else ([], k)

/-- The lane-collision pass `preventOverlaps` on the tail of the list:
walk adjacent pairs; when the current beat shares the previous beat's lane
less than 200ms after it, reassign it to a random lane other than the
previous one (`availableLanes[Math.floor(Math.random() * 3)]`), and
continue comparing against the (possibly reassigned) current beat. -/
def fixFrom (r : ℕ → ℚ) : ℕ → Beat → List Beat → List Beat
  | _, _, [] => []
  | k, prev, curr :: rest =>
      if curr.lane = prev.lane ∧ curr.time - prev.time < 1/5 then
        let availableLanes := ([0, 1, 2, 3] : List ℤ).filter
          (fun l => l ≠ prev.lane)
        let curr2 : Beat :=
          { curr with lane := availableLanes.getD (⌊3 * r k⌋).toNat 0 }
        curr2 :: fixFrom r (k + 1) curr2 rest
      else curr :: fixFrom r k curr rest

/-- `preventOverlaps()` over the whole (sorted) list. -/
def preventOverlaps (r : ℕ → ℚ) (k : ℕ) : List Beat → List Beat
  | [] => []
  | b :: rest => b :: fixFrom r k b rest

/-- `generateBeatsForDuration(duration, difficulty, bpm)` with the random
source made explicit: generate over `[2, duration - 2)` in steps of
`60 / bpm`, stable-sort by time (JavaScript's `Array.prototype.sort` is
stable; modelled by insertion sort, which computes the same stable result),
then run the lane-collision pass. -/
def generateBeatsForDuration (duration : ℚ) (d : Difficulty) (bpm : ℚ)
    (r : ℕ → ℚ) : List Beat :=
  let beatInterval := 60 / bpm
  let endTime := duration - 2
  let fuel := (((duration - 4) * bpm / 60).ceil).toNat + 1
  let gen := genLoop d beatInterval endTime r fuel 2 0
  let sorted := List.insertionSort (fun a b => a.time ≤ b.time) gen.1
  preventOverlaps r gen.2 sorted

/-- A concrete `Math.random()` stream in `[0,1)`: it emits a main beat with
lane 0 at t=2, a subdivision with lane 1 at t=2.05, a main beat with lane 0
at t=2.1, and then nothing more. -/
def rCE : ℕ → ℚ := fun n => if n = 3 then 1/4 else if n ≤ 5 then 0 else 9/10

/-- Closed form of the combo-multiplier table scan. -/
theorem getComboMultiplier_eq (s : ScoringSystem) :
    s.getComboMultiplier =
      if 100 ≤ s.combo then 3
      else if 50 ≤ s.combo then 5/2
      else if 25 ≤ s.combo then 2
      else if 10 ≤ s.combo then 3/2
      else 1 := by
  show comboMultipliers.getD
      ((List.range comboThresholds.length).foldl
        (fun m i => if comboThresholds.getD i 0 ≤ s.combo then i + 1 else m) 0) 1 = _
  have hrange : List.range comboThresholds.length = [0, 1, 2, 3] := by decide
  rw [hrange]
  simp only [List.foldl_cons, List.foldl_nil, comboThresholds, List.getD,
    List.getElem?_cons_zero, List.getElem?_cons_succ, Option.getD_some]
  split_ifs <;> simp_all [comboMultipliers, List.getD]

/-- The combo multiplier only depends on the combo field. -/
theorem getComboMultiplier_congr (s t : ScoringSystem) (h : s.combo = t.combo) :
    s.getComboMultiplier = t.getComboMultiplier := by
  rw [getComboMultiplier_eq, getComboMultiplier_eq, h]

/-- Claim C5: `judgeHit` returns `perfect` when `|d| ≤ 0.05`, `good` when
`0.05 < |d| ≤ 0.10`, `miss` when `|d| > 0.10`, with both window boundaries
inclusive (`judgeHit 0.05 = perfect`, `judgeHit 0.1 = good`,
`judgeHit 0.0500001 = good`, `judgeHit 0.1000001 = miss`) and symmetric in
sign, for any scoring state carrying the default timing windows. -/
theorem judgeHit_windows (s : ScoringSystem)
    (hp : s.timingWindowPerfect = 0.05) (hg : s.timingWindowGood = 0.1)
    (d : ℚ) :
    (|d| ≤ 0.05 → s.judgeHit d = .perfect) ∧
    (0.05 < |d| → |d| ≤ 0.1 → s.judgeHit d = .good) ∧
    (0.1 < |d| → s.judgeHit d = .miss) ∧
    s.judgeHit d = s.judgeHit (-d) ∧
    s.judgeHit 0.05 = .perfect ∧
    s.judgeHit 0.1 = .good ∧
    s.judgeHit 0.0500001 = .good ∧
    s.judgeHit 0.1000001 = .miss := by
  have e1 : |(0.05 : ℚ)| = 0.05 := abs_of_nonneg (by norm_num)
  have e2 : |(0.1 : ℚ)| = 0.1 := abs_of_nonneg (by norm_num)
  have e3 : |(0.0500001 : ℚ)| = 0.0500001 := abs_of_nonneg (by norm_num)
  have e4 : |(0.1000001 : ℚ)| = 0.1000001 := abs_of_nonneg (by norm_num)
  simp only [ScoringSystem.judgeHit, hp, hg, abs_neg, e1, e2, e3, e4]
  refine ⟨fun h => ?_, fun h1 h2 => ?_, fun h => ?_, trivial, ?_, ?_, ?_, ?_⟩
  · rw [if_pos h]
  · rw [if_neg (by linarith), if_pos h2]
  · rw [if_neg (by linarith), if_neg (by linarith)]
  · rw [if_pos (by norm_num)]
  · rw [if_neg (by norm_num), if_pos (by norm_num)]
  · rw [if_neg (by norm_num), if_pos (by norm_num)]
  · rw [if_neg (by norm_num), if_neg (by norm_num)]

/-- Witness for C5 at a concrete input: a delta of 0.075s with the default
windows is judged `good`. -/
theorem judgeHit_windows_witness :
    ScoringSystem.init.judgeHit 0.075 = .good := by
  refine (judgeHit_windows ScoringSystem.init (by norm_num [ScoringSystem.init])
    (by norm_num [ScoringSystem.init]) 0.075).2.1 ?_ ?_ <;>
      rw [abs_of_nonneg (by norm_num)] <;> norm_num

/-- Claim C7: the combo multiplier is monotonically non-decreasing in the
combo and equals 1 below 10, 1.5 on `[10,25)`, 2 on `[25,50)`, 2.5 on
`[50,100)` and 3 from 100 on; in particular it takes the values
1, 1.5, 2, 2.5, 3 at 0, 10, 25, 50, 100. -/
theorem comboMultiplier_spec (s t : ScoringSystem) (hst : s.combo ≤ t.combo) :
    s.getComboMultiplier ≤ t.getComboMultiplier ∧
    (s.combo < 10 → s.getComboMultiplier = 1) ∧
    (10 ≤ s.combo → s.combo < 25 → s.getComboMultiplier = 3/2) ∧
    (25 ≤ s.combo → s.combo < 50 → s.getComboMultiplier = 2) ∧
    (50 ≤ s.combo → s.combo < 100 → s.getComboMultiplier = 5/2) ∧
    (100 ≤ s.combo → s.getComboMultiplier = 3) := by
  rw [getComboMultiplier_eq, getComboMultiplier_eq]
  refine ⟨?_, ?_, ?_, ?_, ?_, ?_⟩ <;>
    intros <;> split_ifs <;>
      first | omega | (exfalso; omega) | norm_num

/-- Witness for C7 at concrete inputs: combo 10 versus combo 25 gives
multipliers 1.5 ≤ 2. -/
theorem comboMultiplier_spec_witness :
    (ScoringSystem.init.withCombo 10).getComboMultiplier
      ≤ (ScoringSystem.init.withCombo 25).getComboMultiplier ∧
    (ScoringSystem.init.withCombo 10).getComboMultiplier = 3/2 := by
  have h := comboMultiplier_spec (ScoringSystem.init.withCombo 10)
    (ScoringSystem.init.withCombo 25) (by norm_num [ScoringSystem.withCombo])
  exact ⟨h.1, h.2.2.1 (by norm_num [ScoringSystem.withCombo])
    (by norm_num [ScoringSystem.withCombo])⟩

/-- Claim C6: `processHit 'miss'` zeroes the combo, earns no score, bumps
`missCount` and `totalNotes`; `processHit 'perfect'`/`'good'` bump combo,
`hitNotes` and `totalNotes` and add `floor(base * comboMultiplier(combo+1))`
to the score with base 100 / 50; `maxCombo` always becomes
`max maxCombo combo`; and ten perfects followed by a miss from the fresh
state leave `combo = 0`, `maxCombo = 10`, `missCount = 1`. -/
theorem processHit_spec (s : ScoringSystem) :
    ((s.processHit .miss).1.combo = 0 ∧
     (s.processHit .miss).2.scoreEarned = 0 ∧
     (s.processHit .miss).1.score = s.score ∧
     (s.processHit .miss).1.missCount = s.missCount + 1 ∧
     (s.processHit .miss).1.totalNotes = s.totalNotes + 1) ∧
    ((s.processHit .perfect).1.combo = s.combo + 1 ∧
     (s.processHit .perfect).1.hitNotes = s.hitNotes + 1 ∧
     (s.processHit .perfect).1.totalNotes = s.totalNotes + 1 ∧
     (s.processHit .perfect).2.scoreEarned =
       ⌊100 * (s.withCombo (s.combo + 1)).getComboMultiplier⌋ ∧
     (s.processHit .perfect).1.score =
       s.score + ⌊100 * (s.withCombo (s.combo + 1)).getComboMultiplier⌋) ∧
    ((s.processHit .good).1.combo = s.combo + 1 ∧
     (s.processHit .good).1.hitNotes = s.hitNotes + 1 ∧
     (s.processHit .good).1.totalNotes = s.totalNotes + 1 ∧
     (s.processHit .good).2.scoreEarned =
       ⌊50 * (s.withCombo (s.combo + 1)).getComboMultiplier⌋ ∧
     (s.processHit .good).1.score =
       s.score + ⌊50 * (s.withCombo (s.combo + 1)).getComboMultiplier⌋) ∧
    (∀ r : HitResult,
      (s.processHit r).1.maxCombo = max s.maxCombo (s.processHit r).1.combo) ∧
    ((ScoringSystem.init.runHits
        [.perfect, .perfect, .perfect, .perfect, .perfect, .perfect, .perfect,
         .perfect, .perfect, .perfect, .miss]).combo = 0 ∧
     (ScoringSystem.init.runHits
        [.perfect, .perfect, .perfect, .perfect, .perfect, .perfect, .perfect,
         .perfect, .perfect, .perfect, .miss]).maxCombo = 10 ∧
     (ScoringSystem.init.runHits
        [.perfect, .perfect, .perfect, .perfect, .perfect, .perfect, .perfect,
         .perfect, .perfect, .perfect, .miss]).missCount = 1) := by
  refine ⟨?_, ?_, ?_, ?_, ?_⟩
  · simp [ScoringSystem.processHit]
  · have hm := getComboMultiplier_congr
      { s with totalNotes := s.totalNotes + 1, perfectCount := s.perfectCount + 1,
               hitNotes := s.hitNotes + 1, combo := s.combo + 1 }
      (s.withCombo (s.combo + 1)) rfl
    simp only [ScoringSystem.processHit, baseScore, hm]
    refine ⟨?_, ?_, ?_, ?_, ?_⟩ <;>
      first | trivial | (split_ifs <;> simp)
  · have hm := getComboMultiplier_congr
      { s with totalNotes := s.totalNotes + 1, goodCount := s.goodCount + 1,
               hitNotes := s.hitNotes + 1, combo := s.combo + 1 }
      (s.withCombo (s.combo + 1)) rfl
    simp only [ScoringSystem.processHit, baseScore, hm]
    refine ⟨?_, ?_, ?_, ?_, ?_⟩ <;>
      first | trivial | (split_ifs <;> simp)
  · intro r
    cases r <;> simp only [ScoringSystem.processHit] <;> split_ifs <;>
      simp only [Nat.max_def] <;> split_ifs <;> omega
  · refine ⟨?_, ?_, ?_⟩ <;>
      simp [ScoringSystem.runHits, ScoringSystem.processHit, ScoringSystem.init,
        getComboMultiplier_eq, baseScore]

/-- Claim C8: `getAccuracy` is 100 on zero judged notes, and otherwise the
rounded-to-one-decimal weighted percentage
`round((perfect + 0.5 * good) / max(totalNotes, 1) * 100)`; concretely one
perfect of one yields 100, one good of one yields 50, one miss of one
yields 0. -/
theorem getAccuracy_spec (s : ScoringSystem) :
    (s.totalNotes = 0 → s.getAccuracy = 100) ∧
    (s.totalNotes ≠ 0 →
      s.getAccuracy =
        (jsRound (((s.perfectCount : ℚ) * 1 + (s.goodCount : ℚ) * (1/2))
            / max (s.totalNotes : ℚ) 1 * 100 * 10) : ℚ) / 10) ∧
    (ScoringSystem.init.processHit .perfect).1.getAccuracy = 100 ∧
    (ScoringSystem.init.processHit .good).1.getAccuracy = 50 ∧
    (ScoringSystem.init.processHit .miss).1.getAccuracy = 0 := by
  have f1 : ⌊(1000 : ℚ) + 1/2⌋ = 1000 := by
    rw [Int.floor_eq_iff] <;> norm_num
  have f2 : ⌊(500 : ℚ) + 1/2⌋ = 500 := by
    rw [Int.floor_eq_iff] <;> norm_num
  have f3 : ⌊(0 : ℚ) + 1/2⌋ = 0 := by
    rw [Int.floor_eq_iff] <;> norm_num
  refine ⟨?_, ?_, ?_, ?_, ?_⟩
  · intro h; simp [ScoringSystem.getAccuracy, h]
  · intro h
    have h1 : (1 : ℚ) ≤ (s.totalNotes : ℚ) := by
      exact_mod_cast Nat.one_le_iff_ne_zero.mpr h
    simp only [ScoringSystem.getAccuracy, if_neg h]
    rw [max_eq_left h1]
  · simp [ScoringSystem.processHit, ScoringSystem.getAccuracy, ScoringSystem.init,
      jsRound]
    norm_num [f1]
  · simp [ScoringSystem.processHit, ScoringSystem.getAccuracy, ScoringSystem.init,
      jsRound]
    norm_num [f2]
  · simp [ScoringSystem.processHit, ScoringSystem.getAccuracy, ScoringSystem.init,
      jsRound]
    norm_num [f3]

/-- Witness for C8 at a concrete input: the fresh state (zero judged notes)
reports accuracy 100. -/
theorem getAccuracy_spec_witness : ScoringSystem.init.getAccuracy = 100 :=
  (getAccuracy_spec ScoringSystem.init).1 rfl

/-- Claim C10: `getProgress` returns 0 whenever `expectedNotes` is unset or
zero (the division is guarded), and otherwise `totalNotes / expectedNotes *
100`; `setTotalExpectedNotes` installs the expected count. -/
theorem getProgress_spec (s : ScoringSystem) :
    ((s.expectedNotes = none ∨ s.expectedNotes = some 0) → s.getProgress = 0) ∧
    (∀ e : ℕ, s.expectedNotes = some e → e ≠ 0 →
      s.getProgress = (s.totalNotes : ℚ) / (e : ℚ) * 100) ∧
    (∀ c : ℕ, (s.setTotalExpectedNotes c).expectedNotes = some c) := by
  refine ⟨?_, ?_, fun c => rfl⟩
  · rintro (h | h) <;> simp [ScoringSystem.getProgress, h]
  · intro e he hne; simp [ScoringSystem.getProgress, he, hne]

/-- Witness for C10 at a concrete input: the fresh state (no expected-note
count installed yet) reports progress 0. -/
theorem getProgress_spec_witness : ScoringSystem.init.getProgress = 0 :=
  (getProgress_spec ScoringSystem.init).1 (Or.inl rfl)

/-- Against a real-time-rate source, one sample from an anchored state
computes exactly the current external time, stays anchored and keeps the
calibration offset. -/
theorem sample_exact (ext : ℚ → ℚ) (hrate : RealTimeRate ext) (s : ClockState)
    (hanc : Anchored ext s) (t : ℚ) :
    (getInterpolatedPlaybackTime ext t s).1.interpolatedTime = ext t ∧
    Anchored ext (getInterpolatedPlaybackTime ext t s).1 ∧
    (getInterpolatedPlaybackTime ext t s).1.calibrationOffset = s.calibrationOffset ∧
    (getInterpolatedPlaybackTime ext t s).2 = ext t + s.calibrationOffset := by
  have key : ext t = s.lastYouTubeTime + (t - s.lastYouTubeTimeUpdate) / 1000 := by
    have := hrate s.lastYouTubeTimeUpdate t
    rw [Anchored] at hanc
    linarith
  unfold getInterpolatedPlaybackTime
  dsimp only
  split_ifs with h
  · exact ⟨rfl, rfl, rfl, rfl⟩
  · exact ⟨key.symm, hanc, rfl, by rw [← key]⟩

/-- Against a real-time-rate source, from an anchored state the per-frame
outputs are exactly the external time plus the calibration offset. -/
theorem runClock_outputs (ext : ℚ → ℚ) (hrate : RealTimeRate ext)
    (frames : List ℚ) :
    ∀ s : ClockState, Anchored ext s →
      (runClock ext frames s).2 =
        frames.map (fun t => ext t + s.calibrationOffset) := by
  induction frames with
  | nil => intro s _; rfl
  | cons t ts ih =>
      intro s hanc
      have h := sample_exact ext hrate s hanc t
      have hrec := ih (getInterpolatedPlaybackTime ext t s).1 h.2.1
      simp only [runClock, hrec, h.2.2.1, h.2.2.2, List.map_cons]

/-- Claim C1 (amended): against any external source advancing at real-time
rate and any anchored starting state, (i) a sample re-queries the source
exactly when more than 100ms of wall time passed since the anchor, and
otherwise extrapolates without moving the anchor; (ii) the internal
`interpolatedTime` equals the true external time exactly — in particular it
is within ±20ms of it; (iii) the values returned over any non-decreasing
frame sequence equal the true time plus the calibration offset and are
monotonically non-decreasing. (The amendment: the *returned* value is
within ±20ms of true elapsed time only when `|calibrationOffset| ≤ 20ms`;
the engine's constructor default is 0.15s, see the counterexample.) -/
theorem clock_spec (ext : ℚ → ℚ) (hrate : RealTimeRate ext) (s : ClockState)
    (hanc : Anchored ext s) (frames : List ℚ)
    (hmono : frames.Pairwise (· ≤ ·)) :
    (∀ (t : ℚ) (u : ClockState), 100 < t - u.lastYouTubeTimeUpdate →
      (getInterpolatedPlaybackTime ext t u).1.lastYouTubeTimeUpdate = t ∧
      (getInterpolatedPlaybackTime ext t u).1.lastYouTubeTime = ext t) ∧
    (∀ (t : ℚ) (u : ClockState), t - u.lastYouTubeTimeUpdate ≤ 100 →
      (getInterpolatedPlaybackTime ext t u).1.lastYouTubeTimeUpdate =
        u.lastYouTubeTimeUpdate ∧
      (getInterpolatedPlaybackTime ext t u).1.lastYouTubeTime =
        u.lastYouTubeTime) ∧
    (∀ (t : ℚ) (u : ClockState), Anchored ext u →
      |(getInterpolatedPlaybackTime ext t u).1.interpolatedTime - ext t|
        ≤ 1/50) ∧
    (runClock ext frames s).2 =
      frames.map (fun t => ext t + s.calibrationOffset) ∧
    (runClock ext frames s).2.Pairwise (· ≤ ·) := by
  refine ⟨?_, ?_, ?_, runClock_outputs ext hrate frames s hanc, ?_⟩
  · intro t u h
    unfold getInterpolatedPlaybackTime
    dsimp only
    rw [if_pos (by linarith)]
    exact ⟨rfl, rfl⟩
  · intro t u h
    unfold getInterpolatedPlaybackTime
    dsimp only
    rw [if_neg (by intro hc; nlinarith)]
    exact ⟨rfl, rfl⟩
  · intro t u hu
    rw [(sample_exact ext hrate u hu t).1]
    simp
  · rw [runClock_outputs ext hrate frames s hanc]
    rw [List.pairwise_map]
    refine hmono.imp ?_
    intro a b hab
    have := hrate a b
    have : ext a ≤ ext b := by linarith [div_nonneg (by linarith : (0:ℚ) ≤ b - a) (by norm_num : (0:ℚ) ≤ 1000)]
    linarith

/-- Witness for C1's amended theorem at a concrete input: a source reporting
wall-ms / 1000 sampled at frames 16, 32 and 120 ms from the anchored start
state with zero calibration offset produces non-decreasing outputs. -/
theorem clock_spec_witness :
    (runClock (fun w => w / 1000) [16, 32, 120]
      (ClockState.mk 0 0 0 0)).2.Pairwise (· ≤ ·) :=
  (clock_spec (fun w => w / 1000) (fun w₁ w₂ => by ring)
    (ClockState.mk 0 0 0 0) (by norm_num [Anchored]) [16, 32, 120]
    (by norm_num [List.pairwise_cons])).2.2.2.2

/-- Counterexample for C1 as stated: with the constructor's default
calibration offset of 0.15s and an external source advancing exactly at
real-time rate (true elapsed song time `w / 1000`), the value returned for
the frame at wall time 50ms is 0.2s while the true elapsed time is 0.05s —
an error of 150ms, outside the claimed ±20ms envelope. -/
theorem clock_within20ms_cex :
    1/50 <
      |(getInterpolatedPlaybackTime (fun w => w / 1000) 50
          (ClockState.mk 0 0 0 (3/20))).2 - 50 / 1000| := by
  have : (getInterpolatedPlaybackTime (fun w => w / 1000) 50
      (ClockState.mk 0 0 0 (3/20))).2 = 1/5 := by
    unfold getInterpolatedPlaybackTime
    dsimp only
    rw [if_neg (by norm_num)]
    norm_num
  rw [this]
  rw [abs_of_nonneg (by norm_num)]
  norm_num

/-- Claim C4 (code bug): pausing does *not* cancel or ignore a pending
end-of-run delay. From a started run whose beat schedule is already
exhausted (here: an empty schedule), one frame schedules the 2-second
end-of-run timeout, the pause key then pauses the run, and when the timeout
fires the run transitions to ended while still paused — `pause()` never
touches `this.endTimeout` and `endGame()` is not guarded by `isPaused`. The
restart half of the claim does hold: `reset()` always clears the pending
end-of-run timeout. -/
theorem pause_endDelay_bug :
    ((runEvents g0 (startedState [])
        [.frame 0, .pauseKey, .endDelayFires]).isGameOver = true ∧
     (runEvents g0 (startedState [])
        [.frame 0, .pauseKey, .endDelayFires]).isPaused = true) ∧
    (∀ s : GameState, (applyEvent g0 s .reset).endPending = false) := by
  constructor
  · norm_num [runEvents, applyEvent, startedState, GameState.update,
      GameState.spawnNotes, spawnRemaining, processNotes,
      GameState.handlePause, GameState.pause, GameState.endGame,
      ScoringSystem.init, ScoringSystem.setTotalExpectedNotes, List.foldl]
  · intro s; rfl

/-- Counterexample for C3 as stated: a spawned note (hit time 2s) whose
first and only update frame observes the clock at 2.7s — more than 0.5s
past the hit time — is removed in that same update (`active` → `missed` →
`removed` within one call), so the engine's miss handler never sees a
`missed` status and `processHit('miss')` is invoked zero times, not once. -/
theorem missedNote_zeroScore_cex :
    (runEvents g0 { startedState [] with notes := [Note.spawn 0 2 1] }
        [.frame (27/10)]).scoring.missCount = 0 ∧
    (runEvents g0 { startedState [] with notes := [Note.spawn 0 2 1] }
        [.frame (27/10)]).notes = [] := by
  have hn : Note.update (27/10) travelTime g0.hitZoneY (g0.laneX 0)
      g0.laneWidth g0.spawnY
      { lane := 0, hitTime := 2, intensity := 1, x := 0, y := 0, width := 60,
        status := .active, hitResult := none, alpha := 1, scale := 1,
        glowIntensity := 0, wasScored := false }
      = { lane := 0, hitTime := 2, intensity := 1, x := -30, y := 0,
          width := 60, status := .removed, hitResult := none, alpha := 1,
          scale := 1, glowIntensity := 0, wasScored := false } := by
    have c1 : ((2:ℚ) - 27/10 < -(3/20)) := by norm_num
    have c2 : ((2:ℚ) - 27/10 < -(1/2)) := by norm_num
    unfold Note.update positionStage missCheck removeCheck hitAnim missAnim
      glowStage travelTime g0
    dsimp only
    simp only [eq_true c1, eq_true c2, true_and, if_true]
    simp
    norm_num
  simp [runEvents, applyEvent, startedState, GameState.update,
    GameState.spawnNotes, spawnRemaining, processNotes, engineNoteUpdate,
    Note.spawn, hn, Note.shouldRemove, ScoringSystem.init,
    ScoringSystem.setTotalExpectedNotes]

/-- `StatusDir` is reflexive. -/
theorem statusDir_refl (a : NoteStatus) : StatusDir a a := by
  cases a <;> trivial

/-- `StatusDir` is transitive. -/
theorem statusDir_trans {a b c : NoteStatus} (h1 : StatusDir a b)
    (h2 : StatusDir b c) : StatusDir a c := by
  cases a <;> cases b <;> cases c <;> simp_all [StatusDir]

/-- Equation for the miss check when the condition fires. -/
theorem missCheck_eq_pos (t : ℚ) (n : Note) (h1 : t < -(3/20))
    (hst : n.status = .active) :
    missCheck t n = { n with status := .missed } := by
  unfold missCheck; rw [if_pos ⟨h1, hst⟩]

/-- Equation for the miss check when the condition does not fire. -/
theorem missCheck_eq_neg (t : ℚ) (n : Note)
    (h : ¬(t < -(3/20) ∧ n.status = .active)) : missCheck t n = n := by
  unfold missCheck; rw [if_neg h]

/-- Equation for the hard cutoff when it fires. -/
theorem removeCheck_eq_pos (t : ℚ) (n : Note) (h : t < -(1/2)) :
    removeCheck t n = { n with status := .removed } := by
  unfold removeCheck; rw [if_pos h]

/-- Equation for the hard cutoff when it does not fire. -/
theorem removeCheck_eq_neg (t : ℚ) (n : Note) (h : ¬(t < -(1/2))) :
    removeCheck t n = n := by
  unfold removeCheck; rw [if_neg h]

/-- The hit fade does nothing off the `hit` status. -/
theorem hitAnim_eq_skip (n : Note) (hst : ¬(n.status = .hit)) :
    hitAnim n = n := by
  unfold hitAnim; rw [if_neg hst]

/-- The miss fade does nothing off the `missed` status. -/
theorem missAnim_eq_skip (n : Note) (hst : ¬(n.status = .missed)) :
    missAnim n = n := by
  unfold missAnim; rw [if_neg hst]

/-- The miss fade on a missed note with alpha still above 0.05 only drops
the alpha. -/
theorem missAnim_eq_fade (n : Note) (hst : n.status = .missed)
    (ha : ¬(n.alpha - 1/20 ≤ 0)) :
    missAnim n = { n with alpha := n.alpha - 1/20 } := by
  unfold missAnim; rw [if_pos hst]; dsimp only; rw [if_neg ha]

/-- The glow stage only rewrites `glowIntensity`, and only on active
notes. -/
theorem glowStage_eq_active (t : ℚ) (n : Note) (hst : n.status = .active) :
    glowStage t n = { n with glowIntensity := max 0 ((1 - |t|) * (1/2)) } := by
  unfold glowStage; rw [if_pos hst]

/-- The glow stage does nothing off the `active` status. -/
theorem glowStage_eq_skip (t : ℚ) (n : Note) (hst : ¬(n.status = .active)) :
    glowStage t n = n := by
  unfold glowStage; rw [if_neg hst]

/-- Every stage of `note.update` preserves `wasScored`, `hitTime` and
`lane`, and moves the status only forward along `StatusDir`. -/
theorem stage_fields (t : ℚ) (n : Note) :
    ((missCheck t n).wasScored = n.wasScored ∧
     (missCheck t n).hitTime = n.hitTime ∧
     (missCheck t n).lane = n.lane ∧
     StatusDir n.status (missCheck t n).status) ∧
    ((removeCheck t n).wasScored = n.wasScored ∧
     (removeCheck t n).hitTime = n.hitTime ∧
     (removeCheck t n).lane = n.lane ∧
     StatusDir n.status (removeCheck t n).status) ∧
    ((hitAnim n).wasScored = n.wasScored ∧
     (hitAnim n).hitTime = n.hitTime ∧
     (hitAnim n).lane = n.lane ∧
     StatusDir n.status (hitAnim n).status) ∧
    ((missAnim n).wasScored = n.wasScored ∧
     (missAnim n).hitTime = n.hitTime ∧
     (missAnim n).lane = n.lane ∧
     StatusDir n.status (missAnim n).status) ∧
    ((glowStage t n).wasScored = n.wasScored ∧
     (glowStage t n).hitTime = n.hitTime ∧
     (glowStage t n).lane = n.lane ∧
     StatusDir n.status (glowStage t n).status) := by
  unfold missCheck removeCheck hitAnim missAnim glowStage
  dsimp only
  refine ⟨?_, ?_, ?_, ?_, ?_⟩ <;> split_ifs <;>
    refine ⟨rfl, rfl, rfl, ?_⟩ <;>
      first
        | exact statusDir_refl _
        | (rename_i hcond
           first
             | (rw [hcond.2]; trivial)
             | (rw [hcond]; trivial)
             | (cases hst : n.status <;> trivial)
             | trivial)
        | (cases hst : n.status <;> trivial)

/-- `note.update` never touches `wasScored`, `hitTime` or `lane`, and moves
the status only forward along `StatusDir`. -/
theorem update_fields (t tt hz lx lw sy : ℚ) (n : Note) :
    (Note.update t tt hz lx lw sy n).wasScored = n.wasScored ∧
    (Note.update t tt hz lx lw sy n).hitTime = n.hitTime ∧
    (Note.update t tt hz lx lw sy n).lane = n.lane ∧
    StatusDir n.status (Note.update t tt hz lx lw sy n).status := by
  unfold Note.update
  dsimp only
  set tu := n.hitTime - t with htu
  set m0 := positionStage tu tt hz lx lw sy n with hm0
  have p0 : m0.wasScored = n.wasScored ∧ m0.hitTime = n.hitTime ∧
      m0.lane = n.lane ∧ m0.status = n.status := ⟨rfl, rfl, rfl, rfl⟩
  have p1 := (stage_fields tu m0).1
  have p2 := ((stage_fields tu (missCheck tu m0)).2).1
  have p3 := (((stage_fields tu (removeCheck tu (missCheck tu m0))).2).2).1
  have p4 := ((((stage_fields tu
    (hitAnim (removeCheck tu (missCheck tu m0)))).2).2).2).1
  have p5 := ((((stage_fields tu
    (missAnim (hitAnim (removeCheck tu (missCheck tu m0))))).2).2).2).2
  refine ⟨?_, ?_, ?_, ?_⟩
  · rw [p5.1, p4.1, p3.1, p2.1, p1.1, p0.1]
  · rw [p5.2.1, p4.2.1, p3.2.1, p2.2.1, p1.2.1, p0.2.1]
  · rw [p5.2.2.1, p4.2.2.1, p3.2.2.1, p2.2.2.1, p1.2.2.1, p0.2.2.1]
  · have d1 : StatusDir n.status (missCheck tu m0).status := by
      rw [← p0.2.2.2]; exact p1.2.2.2
    exact statusDir_trans
      (statusDir_trans (statusDir_trans (statusDir_trans d1 p2.2.2.2)
        p3.2.2.2) p4.2.2.2) p5.2.2.2

/-- An active note observed while the clock has not yet passed
`hitTime + 0.15` stays active with its alpha untouched. -/
theorem update_active_early (t tt hz lx lw sy : ℚ) (n : Note)
    (hst : n.status = .active) (h : ¬(n.hitTime - t < -(3/20))) :
    (Note.update t tt hz lx lw sy n).status = .active ∧
    (Note.update t tt hz lx lw sy n).alpha = n.alpha := by
  have h2 : ¬(n.hitTime - t < -(1/2)) := fun hc => h (by linarith)
  unfold Note.update
  dsimp only
  rw [missCheck_eq_neg _ _ (fun hc => h hc.1)]
  rw [removeCheck_eq_neg _ _ h2]
  rw [hitAnim_eq_skip _ (by simp [positionStage, hst])]
  rw [missAnim_eq_skip _ (by simp [positionStage, hst])]
  rw [glowStage_eq_active _ _ (by simp [positionStage, hst])]
  exact ⟨hst, rfl⟩

/-- An active note with alpha above 0.05 observed strictly inside
`(hitTime + 0.15, hitTime + 0.5]` transitions to `missed`, keeping
`wasScored` and losing 0.05 alpha. -/
theorem update_active_window (t tt hz lx lw sy : ℚ) (n : Note)
    (hst : n.status = .active) (h1 : n.hitTime - t < -(3/20))
    (h2 : ¬(n.hitTime - t < -(1/2))) (hal : 1/20 < n.alpha) :
    (Note.update t tt hz lx lw sy n).status = .missed ∧
    (Note.update t tt hz lx lw sy n).wasScored = n.wasScored ∧
    (Note.update t tt hz lx lw sy n).alpha = n.alpha - 1/20 := by
  unfold Note.update
  dsimp only
  rw [missCheck_eq_pos _ _ h1 (by simp [positionStage, hst])]
  rw [removeCheck_eq_neg _ _ h2]
  rw [hitAnim_eq_skip _ (by simp)]
  rw [missAnim_eq_fade _ (by simp)
    (by intro hc; simp [positionStage] at hc; linarith)]
  rw [glowStage_eq_skip _ _ (by simp)]
  exact ⟨rfl, rfl, rfl⟩

/-- An active note first observed more than 0.5s past its hit time is
removed in that same update, keeping `wasScored`. -/
theorem update_active_late (t tt hz lx lw sy : ℚ) (n : Note)
    (hst : n.status = .active) (h : n.hitTime - t < -(1/2)) :
    (Note.update t tt hz lx lw sy n).status = .removed ∧
    (Note.update t tt hz lx lw sy n).wasScored = n.wasScored := by
  have h1 : n.hitTime - t < -(3/20) := by linarith
  unfold Note.update
  dsimp only
  rw [missCheck_eq_pos _ _ h1 (by simp [positionStage, hst])]
  rw [removeCheck_eq_pos _ _ h]
  rw [hitAnim_eq_skip _ (by simp)]
  rw [missAnim_eq_skip _ (by simp)]
  rw [glowStage_eq_skip _ _ (by simp)]
  exact ⟨rfl, rfl⟩

/-- A status that `StatusDir`-follows `missed` is `missed` or `removed`. -/
theorem statusDir_missed {b : NoteStatus} (h : StatusDir .missed b) :
    b = .missed ∨ b = .removed := by
  cases b <;> simp_all [StatusDir]

/-- `processMiss` bumps `missCount` and zeroes the combo. -/
theorem processMiss_fields (sc : ScoringSystem) :
    (sc.processMiss).1.missCount = sc.missCount + 1 ∧
    (sc.processMiss).1.combo = 0 := by
  unfold ScoringSystem.processMiss ScoringSystem.processHit
  dsimp only
  split_ifs <;> simp

/-- On a list of notes that have all been scored already, the update loop
scores nothing: the scoring state is returned untouched and every surviving
note is still marked scored. -/
theorem processNotes_allScored (g : Geometry) (t : ℚ) :
    ∀ (ns : List Note) (sc : ScoringSystem), (∀ n ∈ ns, n.wasScored = true) →
      (processNotes g t ns sc).2 = sc ∧
      ∀ n ∈ (processNotes g t ns sc).1, n.wasScored = true := by
  intro ns
  induction ns with
  | nil => intro sc _; exact ⟨rfl, by simp [processNotes]⟩
  | cons n rest ih =>
      intro sc hall
      have hws : (engineNoteUpdate g t n).wasScored = true := by
        unfold engineNoteUpdate
        rw [(update_fields t travelTime g.hitZoneY (g.laneX n.lane)
          g.laneWidth g.spawnY n).1]
        exact hall n (List.mem_cons_self n rest)
      have hrest := ih sc (fun m hm => hall m (List.mem_cons_of_mem n hm))
      unfold processNotes
      dsimp only
      rw [if_neg (by simp [hws])]
      dsimp only
      refine ⟨hrest.1, ?_⟩
      intro m hm
      rcases List.mem_cons.mp hm with h | h
      · rw [h]; exact hws
      · exact hrest.2 m h

/-- `update` never changes the phase flags or the beat list. -/
theorem update_flags (g : Geometry) (t : ℚ) (s : GameState) :
    (s.update g t).isRunning = s.isRunning ∧
    (s.update g t).isPaused = s.isPaused ∧
    (s.update g t).upcomingBeats = s.upcomingBeats := by
  unfold GameState.update GameState.spawnNotes
  dsimp only
  split_ifs <;> exact ⟨rfl, rfl, rfl⟩

/-- With an exhausted (empty) beat schedule, `update` is exactly the note
loop followed by pruning, leaving scoring as the loop computes it. -/
theorem update_notes_eq (g : Geometry) (t : ℚ) (s : GameState)
    (hb : s.upcomingBeats = []) :
    (s.update g t).notes =
      (processNotes g t s.notes s.scoring).1.filter (fun n => !n.shouldRemove) ∧
    (s.update g t).scoring = (processNotes g t s.notes s.scoring).2 := by
  unfold GameState.update GameState.spawnNotes
  dsimp only
  rw [hb]
  simp only [List.drop_nil, spawnRemaining, List.append_nil, List.length_nil,
    Nat.add_zero]
  split_ifs <;> exact ⟨rfl, rfl⟩

/-- While in phase, a frame acts as `update` and keeps the phase. -/
theorem frame_phase (g : Geometry) (t : ℚ) (s : GameState) (hp : Phase s) :
    applyEvent g s (.frame t) = s.update g t ∧
    Phase (applyEvent g s (.frame t)) := by
  obtain ⟨h1, h2, h3⟩ := hp
  have heq : applyEvent g s (.frame t) = s.update g t := by
    simp [applyEvent, h1, h2]
  refine ⟨heq, ?_⟩
  rw [heq]
  have hf := update_flags g t s
  exact ⟨hf.1.trans h1, hf.2.1.trans h2, hf.2.2.trans h3⟩

/-- `engineNoteUpdate` is `note.update` at the engine's arguments. -/
theorem engineNoteUpdate_eq (g : Geometry) (t : ℚ) (n : Note) :
    engineNoteUpdate g t n =
      Note.update t travelTime g.hitZoneY (g.laneX n.lane) g.laneWidth
        g.spawnY n := rfl

/-- The note loop on a single note: score it iff the update left it
`missed` and unscored. -/
theorem processNotes_one (g : Geometry) (t : ℚ) (n : Note)
    (sc : ScoringSystem) :
    processNotes g t [n] sc =
      if (engineNoteUpdate g t n).status = .missed ∧
          (engineNoteUpdate g t n).wasScored = false
      then ([{ engineNoteUpdate g t n with wasScored := true }],
            (sc.processMiss).1)
      else ([engineNoteUpdate g t n], sc) := by
  simp only [processNotes]
  split_ifs <;> rfl

/-- `runEvents` step equations. -/
theorem runEvents_cons (g : Geometry) (s : GameState) (e : GameEvent)
    (es : List GameEvent) :
    runEvents g s (e :: es) = runEvents g (applyEvent g s e) es := rfl

/-- `runEvents` splits over list append. -/
theorem runEvents_append (g : Geometry) (s : GameState)
    (l1 l2 : List GameEvent) :
    runEvents g s (l1 ++ l2) = runEvents g (runEvents g s l1) l2 :=
  List.foldl_append ..

/-- A frame seen while the single live note is still early keeps the
untouched-note invariant. -/
theorem frame_A_early (g : Geometry) (t h : ℚ) (s : GameState)
    (hp : Phase s) (ha : AState h s) (hT : ¬(h + 3/20 < t)) :
    AState h (applyEvent g s (.frame t)) := by
  obtain ⟨n, hne, hh, hstat, hws, hal, hmc⟩ := ha
  have hup := update_active_early t travelTime g.hitZoneY (g.laneX n.lane)
    g.laneWidth g.spawnY n hstat (by rw [hh]; intro hc; exact hT (by linarith))
  have hpres := update_fields t travelTime g.hitZoneY (g.laneX n.lane)
    g.laneWidth g.spawnY n
  rw [(frame_phase g t s hp).1]
  have hnotes := update_notes_eq g t s hp.2.2
  rw [← engineNoteUpdate_eq] at hup hpres
  refine ⟨engineNoteUpdate g t n, ?_, ?_, hup.1, ?_, ?_, ?_⟩
  · rw [hnotes.1, hne, processNotes_one,
      if_neg (by rw [hup.1]; simp)]
    simp [List.filter, Note.shouldRemove, hup.1]
  · rw [hpres.2.1, hh]
  · rw [hpres.1, hws]
  · rw [hup.2, hal]
  · rw [hnotes.2, hne, processNotes_one, if_neg (by rw [hup.1]; simp)]
    exact hmc

/-- A frame first observing the single live note inside the scoring window
`(hitTime + 0.15, hitTime + 0.5]` scores the miss exactly once. -/
theorem frame_A_window (g : Geometry) (t h : ℚ) (s : GameState)
    (hp : Phase s) (ha : AState h s) (h1 : h + 3/20 < t) (h2 : t ≤ h + 1/2) :
    DoneState (applyEvent g s (.frame t)) := by
  obtain ⟨n, hne, hh, hstat, hws, hal, hmc⟩ := ha
  have hup := update_active_window t travelTime g.hitZoneY (g.laneX n.lane)
    g.laneWidth g.spawnY n hstat (by rw [hh]; linarith)
    (by rw [hh]; intro hc; linarith) (by rw [hal]; norm_num)
  rw [(frame_phase g t s hp).1]
  have hnotes := update_notes_eq g t s hp.2.2
  rw [← engineNoteUpdate_eq] at hup
  have hcond : (engineNoteUpdate g t n).status = .missed ∧
      (engineNoteUpdate g t n).wasScored = false := ⟨hup.1, hup.2.1.trans hws⟩
  constructor
  · rw [hnotes.2, hne, processNotes_one, if_pos hcond]
    rw [(processMiss_fields s.scoring).1, hmc]
  · intro m hm
    rw [hnotes.1, hne, processNotes_one, if_pos hcond] at hm
    simp only [List.filter, Note.shouldRemove] at hm
    rcases hst : ({ engineNoteUpdate g t n with wasScored := true } :
      Note).status with _ | _ | _ | _ <;> rw [hst] at hm <;>
        simp_all
    all_goals (rcases hm with rfl | hm <;> simp_all)

/-- A frame on a state whose notes are all scored scores nothing more. -/
theorem frame_done (g : Geometry) (t : ℚ) (s : GameState) (hp : Phase s)
    (hd : DoneState s) : DoneState (applyEvent g s (.frame t)) := by
  have hnotes := update_notes_eq g t s hp.2.2
  have hall := processNotes_allScored g t s.notes s.scoring hd.2
  rw [(frame_phase g t s hp).1]
  constructor
  · rw [hnotes.2, hall.1]; exact hd.1
  · intro m hm
    rw [hnotes.1] at hm
    exact hall.2 m (List.mem_of_mem_filter hm)

/-- Over any frames not beyond `hitTime + 0.5`, the run stays in phase and
in the untouched-or-scored-once invariant. -/
theorem runFrames_AD (g : Geometry) (h : ℚ) :
    ∀ ts : List ℚ, (∀ t ∈ ts, t ≤ h + 1/2) →
      ∀ s : GameState, Phase s → AState h s ∨ DoneState s →
        Phase (runEvents g s (ts.map .frame)) ∧
        (AState h (runEvents g s (ts.map .frame)) ∨
          DoneState (runEvents g s (ts.map .frame))) := by
  intro ts
  induction ts with
  | nil => intro _ s hp hi; exact ⟨hp, hi⟩
  | cons t rest ih =>
      intro hall s hp hi
      rw [List.map_cons, runEvents_cons]
      have hp2 := (frame_phase g t s hp).2
      have hi2 : AState h (applyEvent g s (.frame t)) ∨
          DoneState (applyEvent g s (.frame t)) := by
        rcases hi with hA | hD
        · by_cases hT : h + 3/20 < t
          · exact Or.inr (frame_A_window g t h s hp hA hT
              (hall t (List.mem_cons_self t rest)))
          · exact Or.inl (frame_A_early g t h s hp hA hT)
        · exact Or.inr (frame_done g t s hp hD)
      exact ih (fun u hu => hall u (List.mem_cons_of_mem t hu)) _ hp2 hi2

/-- Once the miss is scored, any further frames leave it scored once. -/
theorem runFrames_done (g : Geometry) :
    ∀ ts : List ℚ, ∀ s : GameState, Phase s → DoneState s →
      DoneState (runEvents g s (ts.map .frame)) := by
  intro ts
  induction ts with
  | nil => intro s _ hd; exact hd
  | cons t rest ih =>
      intro s hp hd
      rw [List.map_cons, runEvents_cons]
      exact ih _ (frame_phase g t s hp).2 (frame_done g t s hp hd)

/-- One frame preserves `SubInv`. -/
theorem frame_subinv (g : Geometry) (t : ℚ) (s : GameState) (hp : Phase s)
    (hi : SubInv s) : SubInv (applyEvent g s (.frame t)) := by
  have hnotes := update_notes_eq g t s hp.2.2
  rw [(frame_phase g t s hp).1]
  rcases hi with ⟨n, hne, hws, hmc⟩ | ⟨hmc, hall⟩
  · by_cases hmiss : (engineNoteUpdate g t n).status = .missed
    · right
      have hcond : (engineNoteUpdate g t n).status = .missed ∧
          (engineNoteUpdate g t n).wasScored = false :=
        ⟨hmiss, by rw [engineNoteUpdate_eq,
          (update_fields t travelTime g.hitZoneY (g.laneX n.lane)
            g.laneWidth g.spawnY n).1]; exact hws⟩
      constructor
      · rw [hnotes.2, hne, processNotes_one, if_pos hcond,
          (processMiss_fields s.scoring).1, hmc]
      · intro m hm
        rw [hnotes.1, hne, processNotes_one, if_pos hcond] at hm
        have := List.mem_of_mem_filter hm
        simp only [List.mem_singleton] at this
        rw [this]
    · have hcond : ¬((engineNoteUpdate g t n).status = .missed ∧
          (engineNoteUpdate g t n).wasScored = false) := fun hc => hmiss hc.1
      by_cases hrem : (engineNoteUpdate g t n).shouldRemove = true
      · right
        constructor
        · rw [hnotes.2, hne, processNotes_one, if_neg hcond, hmc]; omega
        · intro m hm
          rw [hnotes.1, hne, processNotes_one, if_neg hcond] at hm
          simp only [List.filter, hrem] at hm
          simp at hm
      · left
        refine ⟨engineNoteUpdate g t n, ?_, ?_, ?_⟩
        · rw [hnotes.1, hne, processNotes_one, if_neg hcond]
          simp only [List.filter]
          rw [Bool.not_eq_true] at hrem
          rw [hrem]
          rfl
        · rw [engineNoteUpdate_eq,
            (update_fields t travelTime g.hitZoneY (g.laneX n.lane)
              g.laneWidth g.spawnY n).1]
          exact hws
        · rw [hnotes.2, hne, processNotes_one, if_neg hcond]; exact hmc
  · right
    have hall2 := processNotes_allScored g t s.notes s.scoring hall
    constructor
    · rw [hnotes.2, hall2.1]; exact hmc
    · intro m hm
      rw [hnotes.1] at hm
      exact hall2.2 m (List.mem_of_mem_filter hm)

/-- `SubInv` holds after any frame sequence. -/
theorem runFrames_subinv (g : Geometry) :
    ∀ ts : List ℚ, ∀ s : GameState, Phase s → SubInv s →
      SubInv (runEvents g s (ts.map .frame)) := by
  intro ts
  induction ts with
  | nil => intro s _ hi; exact hi
  | cons t rest ih =>
      intro s hp hi
      rw [List.map_cons, runEvents_cons]
      exact ih _ (frame_phase g t s hp).2 (frame_subinv g t s hp hi)

/-- Claim C3 (amended): for a spawned note that never receives a keypress,
note status transitions are one-directional
(`active → {hit, missed} → removed`), and the miss path is invoked *at most
once*; it is invoked *exactly once* provided some update frame observes the
note at a clock time in the window `(hitTime + 0.15, hitTime + 0.5]` — the
amendment: if the first frame past `hitTime + 0.15` is already past
`hitTime + 0.5`, the hard cutoff removes the note in the same update and
the miss is never scored (see the counterexample). -/
theorem missedNote_scoredOnce (g : Geometry) (lane : ℤ) (h intens : ℚ)
    (ts : List ℚ) (hsort : ts.Pairwise (· ≤ ·))
    (hwin : ∃ t ∈ ts, h + 3/20 < t ∧ t ≤ h + 1/2) :
    (runEvents g { startedState [] with notes := [Note.spawn lane h intens] }
        (ts.map .frame)).scoring.missCount = 1 ∧
    (∀ ts' : List ℚ,
      (runEvents g
          { startedState [] with notes := [Note.spawn lane h intens] }
          (ts'.map .frame)).scoring.missCount ≤ 1) ∧
    (∀ (m : Note) (u tt hz lx lw sy : ℚ),
      StatusDir m.status (Note.update u tt hz lx lw sy m).status) := by
  have hp0 : Phase { startedState [] with
      notes := [Note.spawn lane h intens] } := ⟨rfl, rfl, rfl⟩
  have hA0 : AState h { startedState [] with
      notes := [Note.spawn lane h intens] } :=
    ⟨Note.spawn lane h intens, rfl, rfl, rfl, rfl, rfl, rfl⟩
  refine ⟨?_, ?_, ?_⟩
  · obtain ⟨t, hmem, hw1, hw2⟩ := hwin
    obtain ⟨pre, post, rfl⟩ := List.append_of_mem hmem
    have hpw := List.pairwise_append.mp hsort
    have hpre_le : ∀ u ∈ pre, u ≤ h + 1/2 := fun u hu =>
      le_trans (hpw.2.2 u hu t (List.mem_cons_self t post)) hw2
    rw [List.map_append, runEvents_append, List.map_cons, runEvents_cons]
    have step1 := runFrames_AD g h pre hpre_le _ hp0 (Or.inl hA0)
    rcases step1.2 with hA | hD
    · exact (runFrames_done g post _ (frame_phase g t _ step1.1).2
        (frame_A_window g t h _ step1.1 hA hw1 hw2)).1
    · exact (runFrames_done g post _ (frame_phase g t _ step1.1).2
        (frame_done g t _ step1.1 hD)).1
  · intro ts'
    have hs := runFrames_subinv g ts' _ hp0
      (Or.inl ⟨Note.spawn lane h intens, rfl, rfl, rfl⟩)
    rcases hs with ⟨n, _, _, hmc⟩ | ⟨hmc, _⟩
    · rw [hmc]; omega
    · exact hmc
  · intro m u tt hz lx lw sy
    exact (update_fields u tt hz lx lw sy m).2.2.2

/-- Witness for C3's amended theorem at a concrete input: a note with hit
time 2s observed by a single frame at 2.2s (inside the scoring window) has
its miss scored exactly once. -/
theorem missedNote_scoredOnce_witness :
    (runEvents g0 { startedState [] with notes := [Note.spawn 0 2 1] }
        ([22/10].map .frame)).scoring.missCount = 1 :=
  (missedNote_scoredOnce g0 0 2 1 [22/10] (by simp)
    ⟨22/10, by simp, by norm_num, by norm_num⟩).1

/-- Any candidate the scan returns is an active note of the pressed lane in
the scanned list, and the reported delta is its `|hitTime - currentTime|`. -/
theorem closestScanAux_mem (lane : ℤ) (T : ℚ) :
    ∀ (ns : List Note) (i : ℕ) (best : Option (ℕ × ℚ)),
      closestScanAux lane T ns i best = best ∨
      ∃ j d, closestScanAux lane T ns i best = some (j, d) ∧
        ∃ n ∈ ns, n.lane = lane ∧ n.isActive = true ∧ d = |n.hitTime - T| := by
  intro ns
  induction ns with
  | nil => intro i best; exact Or.inl rfl
  | cons n rest ih =>
      intro i best
      simp only [closestScanAux]
      by_cases hc : n.lane = lane ∧ n.isActive = true
      · rw [if_pos hc]
        rcases best with _ | ⟨j0, d0⟩
        · rcases ih (i + 1) (some (i, |n.hitTime - T|)) with heq |
            ⟨j, d, heq, m, hm, h1, h2, h3⟩
          · exact Or.inr ⟨i, |n.hitTime - T|, heq, n,
              List.mem_cons_self n rest, hc.1, hc.2, rfl⟩
          · exact Or.inr ⟨j, d, heq, m, List.mem_cons_of_mem n hm,
              h1, h2, h3⟩
        · dsimp only
          by_cases hlt : |n.hitTime - T| < d0
          · rw [if_pos hlt]
            rcases ih (i + 1) (some (i, |n.hitTime - T|)) with heq |
              ⟨j, d, heq, m, hm, h1, h2, h3⟩
            · exact Or.inr ⟨i, |n.hitTime - T|, heq, n,
                List.mem_cons_self n rest, hc.1, hc.2, rfl⟩
            · exact Or.inr ⟨j, d, heq, m, List.mem_cons_of_mem n hm,
                h1, h2, h3⟩
          · rw [if_neg hlt]
            rcases ih (i + 1) (some (j0, d0)) with heq |
              ⟨j, d, heq, m, hm, h1, h2, h3⟩
            · exact Or.inl heq
            · exact Or.inr ⟨j, d, heq, m, List.mem_cons_of_mem n hm,
                h1, h2, h3⟩
      · rw [if_neg hc]
        rcases ih (i + 1) best with heq | ⟨j, d, heq, m, hm, h1, h2, h3⟩
        · exact Or.inl heq
        · exact Or.inr ⟨j, d, heq, m, List.mem_cons_of_mem n hm, h1, h2, h3⟩

/-- `judgeHit` only looks at the absolute value of its argument. -/
theorem judgeHit_abs (sc : ScoringSystem) (x : ℚ) :
    sc.judgeHit |x| = sc.judgeHit x := by
  unfold ScoringSystem.judgeHit
  rw [abs_abs]

/-- Claim C9: a keypress on lane `L` at interpolated time `T` is a no-op —
the state, hence every note status and all of score, combo, maxCombo and
the breakdown counts, is unchanged — whenever no active note exists in lane
`L`, or every active note of lane `L` (in particular the closest one) is
outside the 0.15s hard gate, or the Judge maps every such note's delta (in
particular the minimal one) to `miss`. -/
theorem keypress_noop (s : GameState) (lane : ℤ) (T : ℚ)
    (hcond :
      (¬∃ n ∈ s.notes, n.lane = lane ∧ n.isActive = true) ∨
      (∀ n ∈ s.notes, n.lane = lane → n.isActive = true →
        3/20 < |n.hitTime - T|) ∨
      (∀ n ∈ s.notes, n.lane = lane → n.isActive = true →
        s.scoring.judgeHit (n.hitTime - T) = .miss)) :
    s.handleKeyPress lane T = s := by
  unfold GameState.handleKeyPress
  split_ifs with hpause
  · rfl
  cases hscan : closestScan lane T s.notes with
  | none => rfl
  | some p =>
      obtain ⟨i, d⟩ := p
      dsimp only
      have hw := closestScanAux_mem lane T s.notes 0 none
      rw [closestScan] at hscan
      rcases hw with heq | ⟨j, d2, heq, n, hn, hl, hact, hd⟩
      · rw [heq] at hscan; exact absurd hscan (by simp)
      · rw [hscan] at heq
        injection heq with h2
        rw [Prod.mk.injEq] at h2
        obtain ⟨rfl, rfl⟩ := h2
        subst hd
        rcases hcond with hnone | hgate | hjudge
        · exact absurd ⟨n, hn, hl, hact⟩ hnone
        · rw [if_neg (not_le.mpr (hgate n hn hl hact))]
        · by_cases hle : |n.hitTime - T| ≤ 3/20
          · rw [if_pos hle]
            have hj : s.scoring.judgeHit |n.hitTime - T| = .miss := by
              rw [judgeHit_abs]; exact hjudge n hn hl hact
            simp [hj]
          · rw [if_neg hle]

/-- Witness for C9 at a concrete input: with no notes at all, a press on
lane 0 at time 1 changes nothing. -/
theorem keypress_noop_witness :
    (startedState []).handleKeyPress 0 1 = startedState [] :=
  keypress_noop (startedState []) 0 1 (Or.inl (by simp [startedState]))

/-- A random draw in `[0,1)` lands the lane in `0..3`. -/
theorem lane4_bounds (x : ℚ) (h0 : 0 ≤ x) (h1 : x < 1) :
    0 ≤ lane4 x ∧ lane4 x ≤ 3 := by
  unfold lane4
  constructor
  · exact Int.le_floor.mpr (by push_cast; linarith)
  · have : ⌊4 * x⌋ < 4 := Int.floor_lt.mpr (by push_cast; linarith)
    omega

set_option maxHeartbeats 2000000 in
/-- Every beat one loop iteration emits has its time in `[2, endTime)` and
its lane in `0..3`. -/
theorem genIter_mem (d : Difficulty) (bi endTime : ℚ) (r : ℕ → ℚ)
    (t : ℚ) (k : ℕ) (hbi : 0 < bi) (ht2 : 2 ≤ t) (hte : t < endTime)
    (hr : ∀ m, 0 ≤ r m ∧ r m < 1) :
    ∀ b ∈ (genIter d bi endTime r t k).1,
      (2 ≤ b.time ∧ b.time < endTime) ∧ (0 ≤ b.lane ∧ b.lane ≤ 3) := by
  intro b hb
  unfold genIter at hb
  dsimp only at hb
  rcases List.mem_append.mp hb with hb | hb
  · rcases List.mem_append.mp hb with hb | hb
    · split_ifs at hb with h
      · obtain rfl := List.eq_of_mem_singleton hb
        exact ⟨⟨ht2, hte⟩, lane4_bounds _ (hr _).1 (hr _).2⟩
      · exact absurd hb (List.not_mem_nil b)
    · split_ifs at hb
      all_goals
        first
          | (obtain rfl := List.eq_of_mem_singleton hb;
             exact ⟨⟨by linarith, by linarith⟩,
               lane4_bounds _ (hr _).1 (hr _).2⟩)
          | exact absurd hb (List.not_mem_nil b)
  · split_ifs at hb
    all_goals simp at hb
    all_goals
      first
        | exact hb.elim
        | (rcases hb with rfl | rfl <;>
            exact ⟨⟨by linarith, by linarith⟩,
              lane4_bounds _ (hr _).1 (hr _).2⟩)
        | (subst hb;
           exact ⟨⟨by linarith, by linarith⟩,
             lane4_bounds _ (hr _).1 (hr _).2⟩)

/-- Every beat the while-loop emits has its time in `[2, endTime)` and its
lane in `0..3`. -/
theorem genLoop_mem (d : Difficulty) (bi endTime : ℚ) (r : ℕ → ℚ)
    (hbi : 0 < bi) (hr : ∀ m, 0 ≤ r m ∧ r m < 1) :
    ∀ (fuel : ℕ) (t : ℚ) (k : ℕ), 2 ≤ t →
      ∀ b ∈ (genLoop d bi endTime r fuel t k).1,
        (2 ≤ b.time ∧ b.time < endTime) ∧ (0 ≤ b.lane ∧ b.lane ≤ 3) := by
  intro fuel
  induction fuel with
  | zero => intro t k _ b hb; exact absurd hb (List.not_mem_nil b)
  | succ fuel ih =>
      intro t k ht b hb
      unfold genLoop at hb
      dsimp only at hb
      split_ifs at hb with hlt
      · rcases List.mem_append.mp hb with h | h
        · exact genIter_mem d bi endTime r t k hbi ht hlt hr b h
        · exact ih (t + bi) _ (by linarith) b h
      · exact absurd hb (List.not_mem_nil b)

/-- `availableLanes[...]` is always one of the four lanes, whatever the
index (in range it is a filtered element; out of range `getD` falls back to
lane 0). -/
theorem pickLane_bounds (p : ℤ) (i : ℕ) :
    0 ≤ (([0, 1, 2, 3] : List ℤ).filter (fun l => l ≠ p)).getD i 0 ∧
    (([0, 1, 2, 3] : List ℤ).filter (fun l => l ≠ p)).getD i 0 ≤ 3 := by
  rw [List.getD_eq_getElem?_getD]
  rcases hg : (([0, 1, 2, 3] : List ℤ).filter (fun l => l ≠ p))[i]? with _ | x
  · simp
  · simp only [Option.getD_some]
    have hx := List.getElem?_mem hg
    have hm := List.mem_of_mem_filter hx
    simp at hm
    rcases hm with rfl | rfl | rfl | rfl <;> norm_num

/-- Removing one lane from the four leaves at least three choices. -/
theorem availableLanes_length (p : ℤ) :
    3 ≤ (([0, 1, 2, 3] : List ℤ).filter (fun l => l ≠ p)).length := by
  by_cases hp : p = 0 ∨ p = 1 ∨ p = 2 ∨ p = 3
  · rcases hp with rfl | rfl | rfl | rfl <;> decide
  · push_neg at hp
    have h4 : (([0, 1, 2, 3] : List ℤ).filter (fun l => l ≠ p)) =
        [0, 1, 2, 3] := by
      rw [List.filter_eq_self]
      intro a ha
      fin_cases ha <;> simp_all <;> omega
    rw [h4]
    decide

/-- With `Math.random()` in `[0,1)`, the reassigned lane
`availableLanes[Math.floor(Math.random() * 3)]` differs from the previous
beat's lane. -/
theorem pickLane_ne (p : ℤ) (x : ℚ) (h0 : 0 ≤ x) (h1 : x < 1) :
    (([0, 1, 2, 3] : List ℤ).filter (fun l => l ≠ p)).getD
      (⌊3 * x⌋).toNat 0 ≠ p := by
  have hidx : (⌊3 * x⌋).toNat < 3 := by
    have hlt : ⌊3 * x⌋ < 3 := Int.floor_lt.mpr (by push_cast; linarith)
    have h0i : 0 ≤ ⌊3 * x⌋ := Int.le_floor.mpr (by push_cast; linarith)
    omega
  have hlt2 : (⌊3 * x⌋).toNat <
      (([0, 1, 2, 3] : List ℤ).filter (fun l => l ≠ p)).length :=
    lt_of_lt_of_le hidx (availableLanes_length p)
  rw [List.getD_eq_getElem?_getD, List.getElem?_eq_getElem hlt2]
  simp only [Option.getD_some]
  have hmem := List.getElem_mem
    (l := ([0, 1, 2, 3] : List ℤ).filter (fun l => l ≠ p))
    (n := (⌊3 * x⌋).toNat) hlt2
  have := List.of_mem_filter hmem
  simpa using this

/-- The lane-collision pass never changes the times. -/
theorem fixFrom_times (r : ℕ → ℚ) :
    ∀ (l : List Beat) (k : ℕ) (prev : Beat),
      (fixFrom r k prev l).map (fun b => b.time) =
        l.map (fun b => b.time) := by
  intro l
  induction l with
  | nil => intro k prev; rfl
  | cons curr rest ih =>
      intro k prev
      unfold fixFrom
      dsimp only
      split_ifs with h
      · simp only [List.map_cons, ih]
      · simp only [List.map_cons, ih]

/-- Every beat the lane-collision pass returns keeps the time of a beat of
the input, and its lane is either that beat's lane or a freshly drawn lane
in `0..3`. -/
theorem fixFrom_mem (r : ℕ → ℚ) :
    ∀ (l : List Beat) (k : ℕ) (prev : Beat), ∀ b ∈ fixFrom r k prev l,
      ∃ b0 ∈ l, b.time = b0.time ∧
        (b.lane = b0.lane ∨ (0 ≤ b.lane ∧ b.lane ≤ 3)) := by
  intro l
  induction l with
  | nil => intro k prev b hb; exact absurd hb (List.not_mem_nil b)
  | cons curr rest ih =>
      intro k prev b hb
      unfold fixFrom at hb
      dsimp only at hb
      split_ifs at hb with h
      · rcases List.mem_cons.mp hb with rfl | hb
        · exact ⟨curr, List.mem_cons_self curr rest, rfl,
            Or.inr (pickLane_bounds prev.lane ((⌊3 * r k⌋).toNat))⟩
        · obtain ⟨b0, hb0, ht, hl⟩ := ih (k + 1) _ b hb
          exact ⟨b0, List.mem_cons_of_mem curr hb0, ht, hl⟩
      · rcases List.mem_cons.mp hb with heq | hb
        · exact ⟨curr, List.mem_cons_self curr rest, by rw [heq],
            Or.inl (by rw [heq])⟩
        · obtain ⟨b0, hb0, ht, hl⟩ := ih k _ b hb
          exact ⟨b0, List.mem_cons_of_mem curr hb0, ht, hl⟩

/-- After the lane-collision pass, no element shares its predecessor's lane
within 200ms — starting from the untouched head element. -/
theorem fixFrom_chain (r : ℕ → ℚ) (hr : ∀ m, 0 ≤ r m ∧ r m < 1) :
    ∀ (l : List Beat) (k : ℕ) (prev : Beat),
      List.Chain (fun a b => ¬(b.lane = a.lane ∧ b.time - a.time < 1/5))
        prev (fixFrom r k prev l) := by
  intro l
  induction l with
  | nil => intro k prev; exact List.Chain.nil
  | cons curr rest ih =>
      intro k prev
      unfold fixFrom
      dsimp only
      split_ifs with h
      · refine List.Chain.cons ?_ (ih (k + 1) _)
        intro hc
        exact pickLane_ne prev.lane (r k) (hr k).1 (hr k).2 hc.1
      · exact List.Chain.cons h (ih k _)

/-- `preventOverlaps` never changes the times. -/
theorem preventOverlaps_times (r : ℕ → ℚ) (k : ℕ) (l : List Beat) :
    (preventOverlaps r k l).map (fun b => b.time) =
      l.map (fun b => b.time) := by
  cases l with
  | nil => rfl
  | cons hd rest => simp only [preventOverlaps, List.map_cons, fixFrom_times]

/-- Every beat `preventOverlaps` returns keeps the time of an input beat,
with either that beat's lane or a fresh lane in `0..3`. -/
theorem preventOverlaps_mem (r : ℕ → ℚ) (k : ℕ) (l : List Beat) :
    ∀ b ∈ preventOverlaps r k l, ∃ b0 ∈ l, b.time = b0.time ∧
      (b.lane = b0.lane ∨ (0 ≤ b.lane ∧ b.lane ≤ 3)) := by
  cases l with
  | nil => intro b hb; exact absurd hb (List.not_mem_nil b)
  | cons hd rest =>
      intro b hb
      rcases List.mem_cons.mp hb with heq | hb
      · exact ⟨hd, List.mem_cons_self hd rest, by rw [heq],
          Or.inl (by rw [heq])⟩
      · obtain ⟨b0, hb0, ht, hl⟩ := fixFrom_mem r rest k hd b hb
        exact ⟨b0, List.mem_cons_of_mem hd hb0, ht, hl⟩

/-- After `preventOverlaps`, no two adjacent beats share a lane less than
200ms apart. -/
theorem preventOverlaps_chain (r : ℕ → ℚ) (hr : ∀ m, 0 ≤ r m ∧ r m < 1)
    (k : ℕ) (l : List Beat) :
    (preventOverlaps r k l).Chain'
      (fun a b => ¬(b.lane = a.lane ∧ b.time - a.time < 1/5)) := by
  cases l with
  | nil => exact List.chain'_nil
  | cons hd rest => exact fixFrom_chain r hr rest k hd

/-- Claim C2 (amended): for every duration, difficulty, positive bpm, and
random stream valued in `[0,1)`, the generated sequence is sorted ascending
by time, every event time lies in `[2, duration - 2]`, every lane is in
`0..3`, and no two *adjacent* events share a lane less than 0.2s apart —
the amendment: the lane-collision pass only separates adjacent pairs, so
two *non-adjacent* events may still share a lane within 0.2s (see the
counterexample). -/
theorem generateBeats_spec (duration : ℚ) (d : Difficulty) (bpm : ℚ)
    (r : ℕ → ℚ) (hdur : 4 ≤ duration) (hbpm : 0 < bpm)
    (hr : ∀ m, 0 ≤ r m ∧ r m < 1) :
    (generateBeatsForDuration duration d bpm r).Pairwise
      (fun a b => a.time ≤ b.time) ∧
    (∀ b ∈ generateBeatsForDuration duration d bpm r,
      2 ≤ b.time ∧ b.time ≤ duration - 2) ∧
    (∀ b ∈ generateBeatsForDuration duration d bpm r,
      0 ≤ b.lane ∧ b.lane ≤ 3) ∧
    (generateBeatsForDuration duration d bpm r).Chain'
      (fun a b => ¬(b.lane = a.lane ∧ b.time - a.time < 1/5)) := by
  haveI : IsTrans Beat (fun a b => a.time ≤ b.time) :=
    ⟨fun _ _ _ h1 h2 => le_trans h1 h2⟩
  haveI : IsTotal Beat (fun a b => a.time ≤ b.time) :=
    ⟨fun a b => le_total a.time b.time⟩
  have hbi : 0 < 60 / bpm := by positivity
  unfold generateBeatsForDuration
  dsimp only
  set raw := (genLoop d (60 / bpm) (duration - 2) r
    ((((duration - 4) * bpm / 60).ceil).toNat + 1) 2 0).1 with hraw
  set k0 := (genLoop d (60 / bpm) (duration - 2) r
    ((((duration - 4) * bpm / 60).ceil).toNat + 1) 2 0).2 with hk0
  set sorted := List.insertionSort (fun a b => a.time ≤ b.time) raw
    with hsorted_def
  have hraw_mem : ∀ b ∈ raw, (2 ≤ b.time ∧ b.time < duration - 2) ∧
      (0 ≤ b.lane ∧ b.lane ≤ 3) := by
    intro b hb
    exact genLoop_mem d (60 / bpm) (duration - 2) r hbi hr _ 2 0 le_rfl b hb
  have hsort_mem : ∀ b ∈ sorted, (2 ≤ b.time ∧ b.time < duration - 2) ∧
      (0 ≤ b.lane ∧ b.lane ≤ 3) := by
    intro b hb
    exact hraw_mem b ((List.mem_insertionSort _).mp hb)
  have hsorted : sorted.Pairwise (fun a b => a.time ≤ b.time) :=
    List.sorted_insertionSort _ raw
  refine ⟨?_, ?_, ?_, preventOverlaps_chain r hr k0 sorted⟩
  · have h1 : (sorted.map (fun b => b.time)).Pairwise (· ≤ ·) :=
      List.pairwise_map.mpr hsorted
    have h2 : ((preventOverlaps r k0 sorted).map
        (fun b => b.time)).Pairwise (· ≤ ·) := by
      rw [preventOverlaps_times]; exact h1
    exact List.pairwise_map.mp h2
  · intro b hb
    obtain ⟨b0, hb0, ht, _⟩ := preventOverlaps_mem r k0 sorted b hb
    have := (hsort_mem b0 hb0).1
    rw [ht]
    exact ⟨this.1, le_of_lt this.2⟩
  · intro b hb
    obtain ⟨b0, hb0, _, hl⟩ := preventOverlaps_mem r k0 sorted b hb
    rcases hl with heq | hbounds
    · rw [heq]; exact (hsort_mem b0 hb0).2
    · exact hbounds

/-- Witness for C2's amended theorem at a concrete input: duration 5s,
medium difficulty, 60 bpm, constant stream 1/2. -/
theorem generateBeats_spec_witness :
    (generateBeatsForDuration 5 .medium 60 (fun _ => 1/2)).Pairwise
      (fun a b => a.time ≤ b.time) :=
  (generateBeats_spec 5 .medium 60 (fun _ => 1/2) (by norm_num)
    (by norm_num) (fun m => by norm_num)).1

set_option maxHeartbeats 1000000 in
/-- Counterexample for C2 as stated: for duration 4.5s, medium difficulty,
bpm 600 and the stream `rCE` (valued in `[0,1)` as `Math.random()` is), the
generator returns `[{t=2, lane 0}, {t=2.05, lane 1}, {t=2.1, lane 0}]`: the
first and third events share lane 0 only 0.1s < 0.2s apart. They are not
adjacent, so the lane-collision pass (which only compares adjacent pairs)
leaves them untouched, refuting "no two events assigned to the same lane
are within 0.2 seconds of each other". -/
theorem generateBeats_sameLane_cex :
    (∀ m, 0 ≤ rCE m ∧ rCE m < 1) ∧
    generateBeatsForDuration (9/2) .medium 600 rCE =
      [⟨2, 0, 1⟩, ⟨41/20, 1, 7/10⟩, ⟨21/10, 0, 1⟩] ∧
    ((generateBeatsForDuration (9/2) .medium 600 rCE).getD 0
        ⟨0, 0, 0⟩).lane =
      ((generateBeatsForDuration (9/2) .medium 600 rCE).getD 2
        ⟨0, 0, 0⟩).lane ∧
    ((generateBeatsForDuration (9/2) .medium 600 rCE).getD 2
          ⟨0, 0, 0⟩).time -
        ((generateBeatsForDuration (9/2) .medium 600 rCE).getD 0
          ⟨0, 0, 0⟩).time = 1/10 := by
  have heval : generateBeatsForDuration (9/2) .medium 600 rCE =
      [⟨2, 0, 1⟩, ⟨41/20, 1, 7/10⟩, ⟨21/10, 0, 1⟩] := by
    norm_num [generateBeatsForDuration, genLoop, genIter, difficultySettings,
      rCE, lane4, Rat.ceil, List.insertionSort, List.orderedInsert,
      preventOverlaps, fixFrom,
      show (Difficulty.medium = Difficulty.easy) = False from by simp,
      show (Difficulty.medium = Difficulty.hard) = False from by simp,
      Int.floor_eq_iff]
  refine ⟨?_, heval, ?_, ?_⟩
  · intro m
    unfold rCE
    split_ifs <;> norm_num
  · rw [heval]; rfl
  · rw [heval]; norm_num [List.getD]

end RhythmGame
